import Mathlib

/-!
Verification of matra's WSGI request-handling core (`matra/common/wsgi.py`)
against its natural-language specification.

The Python source is shallowly embedded: pure request-classification code
becomes Lean functions over an explicit `Request` record, the retrying socket
bind and the worker reap loop become functions over explicit traces of
attempt/event outcomes, and the dispatch pipeline of `Resource.__call__`
becomes a function from the outcomes of the deserializer and controller
invocations to the outcome of the call.
-/

/-! ## Request model

Embeds the parts of a `webob.Request` that `matra.common.wsgi` reads:
the HTTP method, the parsed `Content-Type` header (webob's
`request.content_type` property, `""` when the header is absent), the query
parameters (webob's `request.params`), the raw body string and the parsed
`Content-Length` (`none` when the header is absent; in the Python 2 code a
`None` content length makes `content_length > 0` false). -/
structure Request where
  method : String
  content_type : String
  queryParams : List (String × String)
  body : String
  content_length : Option Nat

/-- Embeds `request.params.get(key)`: the value of a query parameter, or
`none` when absent.  (Duplicate keys do not arise in the requests the
claims quantify over.) -/
def paramsGet (r : Request) (key : String) : Option String :=
  (r.queryParams.find? (fun kv => kv.1 = key)).map (fun kv => kv.2)

/-- Embeds `request.content_length > 0` under Python 2 semantics, where a
`None` content length compares as not greater than `0`. -/
def contentLengthPos (r : Request) : Bool :=
  match r.content_length with
  | some n => decide (0 < n)
  | none => false

/-- Embeds Python's `str.startswith`: the first string starts with the
second.  (Defined over the character lists so that it computes by kernel
reduction.) -/
def startswith (s p : String) : Bool :=
  p.data.isPrefixOf s.data

/-- The first stage of `is_json_content_type` (wsgi.py lines 436-444):
for GET requests the `ContentType` query parameter, when present and
non-empty (Python's `aws_content_type or request.content_type` falls back
on any falsy value), replaces the `Content-Type` header; for other methods
the header is used as-is. -/
def effective_content_type (r : Request) : String :=
  if r.method = "GET" then
    match paramsGet r "ContentType" with
    | some v => if v = "" then r.content_type else v
    | none => r.content_type
  else r.content_type

/-- Embeds `is_json_content_type(request)` (wsgi.py lines 435-452): the
effective content type, with empty or `text/plain`-prefixed values rewritten
to `application/json` for backward compatibility, must be `JSON` or
`application/json`, and the raw body must start with a left brace. -/
def is_json_content_type (r : Request) : Bool :=
  let ct0 := effective_content_type r
  let ct := if ct0 = "" || startswith ct0 "text/plain" then "application/json" else ct0
  (ct = "JSON" || ct = "application/json") && startswith r.body "\x7b"

/-- Embeds `JSONRequestDeserializer.has_body(request)` (wsgi.py lines
456-465): true when `content_length > 0` and `is_json_content_type`. -/
def has_body (r : Request) : Bool :=
  contentLengthPos r && is_json_content_type r

/-! ## Response serializer selection

`Resource.__call__` (wsgi.py lines 614-622) either uses the serializer the
`Resource` was constructed with, or, when that is `None`, picks
`JSONResponseSerializer` exactly when the `ContentType` query parameter
equals `"JSON"` and `XMLResponseSerializer` otherwise. -/
inductive Serializer where
  | jsonResponse
  | xmlResponse
  | custom (name : String)
deriving DecidableEq

/-- Embeds the serializer selection of `Resource.__call__` (lines 616-622):
`selfSerializer` is the `serializer` the `Resource` was constructed with
(`none` embeds Python's `None`), and the request supplies the `ContentType`
query parameter read at line 581. -/
def negotiated_serializer (selfSerializer : Option Serializer) (r : Request) : Serializer :=
  match selfSerializer with
  | some s => s
  | none =>
    if paramsGet r "ContentType" = some "JSON" then Serializer.jsonResponse
    else Serializer.xmlResponse

/-! ## Spec-side request-body predicates for claim C3

`spec_has_body_claim` transcribes the claim's characterization literally
(a disjunction in which the `Content-Type` header saying `application/json`
or `JSON` suffices on its own); `spec_has_body_amended` is the amended
characterization in which, for GET requests, a non-empty `ContentType`
query parameter replaces the header before the JSON-likeness test. -/
def spec_has_body_claim (r : Request) : Bool :=
  contentLengthPos r
    && ((r.content_type = "application/json" || r.content_type = "JSON")
        || (r.method = "GET"
            && (match paramsGet r "ContentType" with
                | some v => v = "JSON" || v = "application/json"
                | none => false))
        || (r.content_type = "" || startswith r.content_type "text/plain"))
    && startswith r.body "\x7b"

/-- The amended body-presence characterization: as the claim, but the
JSON-likeness test is applied to the effective content type, in which,
for GET requests, a non-empty `ContentType` query parameter replaces the
`Content-Type` header. -/
def spec_has_body_amended (r : Request) : Bool :=
  contentLengthPos r
    && (let ct := effective_content_type r
        ct = "application/json" || ct = "JSON" || ct = "" || startswith ct "text/plain")
    && startswith r.body "\x7b"

/-- Replaces the query parameters of a request. -/
def withParams (r : Request) (q : List (String × String)) : Request :=
  { r with queryParams := q }

/-- Drops every occurrence of a query parameter. -/
def withoutParam (r : Request) (key : String) : Request :=
  { r with queryParams := r.queryParams.filter (fun kv => kv.1 ≠ key) }

/-! ## Exceptions and their translation

`translate_exception` (wsgi.py lines 676-693) localizes the translatable
elements of an exception.  Message values are either plain strings or
`gettextutils.Message` objects; only the latter are translatable. -/
inductive Msg where
  | plain (s : String)
  | message (s : String)
deriving DecidableEq

/-- Embeds `isinstance(m, gettextutils.Message)`. -/
def isMessage : Msg → Bool
  | .plain _ => false
  | .message _ => true

/-- Modelled from the spec: `gettextutils.get_localized_message` (the
`matra.openstack.common.gettextutils` module is not under `src/`) looks a
translatable `Message` up in the catalog for the given locale and returns
any other value unchanged.  The catalog lookup itself is abstracted as the
function `tr`. -/
def get_localized_message (tr : String → String → String) (locale : String) : Msg → Msg
  | .message s => .message (tr locale s)
  | .plain s => .plain s

/-- Embeds a `webob.exc` HTTP exception: its status code and its
`message`, `explanation` and `detail` attributes. -/
structure HTTPExc where
  code : Nat
  message : Msg
  explanation : Msg
  detail : Msg
deriving DecidableEq

/-- Embeds the Python exceptions that can cross `Resource.__call__`'s
dispatch boundary: `TypeError` (whose message is always a plain string),
`webob.exc.HTTPException` subclasses, and any other exception (tagged with
its class name). -/
inductive PyExc where
  | typeErr (s : String)
  | httpExc (e : HTTPExc)
  | otherExc (name : String) (message : Msg)
deriving DecidableEq

/-- Embeds `isinstance(exc, webob.exc.HTTPError)`: webob's `HTTPError` is
the superclass of exactly the 4xx and 5xx HTTP exceptions. -/
def isHTTPError (e : HTTPExc) : Bool :=
  decide (400 ≤ e.code)

/-- Embeds `isinstance(err, (webob.exc.HTTPOk, webob.exc.HTTPRedirection))`:
the 2xx and 3xx HTTP exceptions. -/
def isOkOrRedirection (e : HTTPExc) : Bool :=
  decide (200 ≤ e.code) && decide (e.code < 400)

/-- Embeds the `webob.exc.HTTPError` branch of `translate_exception`
(wsgi.py lines 678-692): the message is localized first; if the explanation
is not a `Message` (i.e. it is webob's generic untranslatable default) the
explanation is swapped for the already-localized message and the detail is
cleared, otherwise explanation and detail are localized independently. -/
def translateHTTPError (tr : String → String → String) (locale : String) (e : HTTPExc) :
    HTTPExc :=
  let msg := get_localized_message tr locale e.message
  if isMessage e.explanation then
    { e with
      message := msg
      explanation := get_localized_message tr locale e.explanation
      detail := get_localized_message tr locale e.detail }
  else
    { e with message := msg, explanation := msg, detail := Msg.plain "" }

/-- Embeds `translate_exception(exc, locale)` (wsgi.py lines 676-693).
Every exception has its message localized; HTTP errors additionally have
explanation and detail rewritten by `translateHTTPError`.  A `TypeError`'s
message is a plain string, which `get_localized_message` returns
unchanged. -/
def translate_exception (tr : String → String → String) (locale : String) : PyExc → PyExc
  | .typeErr s => .typeErr s
  | .otherExc name m => .otherExc name (get_localized_message tr locale m)
  | .httpExc e =>
    if isHTTPError e then .httpExc (translateHTTPError tr locale e)
    else .httpExc { e with message := get_localized_message tr locale e.message }

/-- Embeds webob's default explanation text for `400 Bad Request` — a plain
string, not a translatable `Message`. -/
def badRequestExplanation : String :=
  "The server could not comply with the request since it is either malformed or otherwise incorrect."

/-- Embeds the fixed malformed-request message built at wsgi.py lines
592-593; `_()` wraps it in a translatable `Message`. -/
def malformedRequestMsg : Msg :=
  Msg.message
    "The server could not comply with the request since\r\nit is either malformed or otherwise incorrect.\r\n"

/-- Embeds `webob.exc.HTTPBadRequest(msg)`: a 400 whose `detail` (and hence
Python 2 `message`) is the constructor argument and whose `explanation` is
the class's plain default text. -/
def http_bad_request (m : Msg) : HTTPExc :=
  { code := 400, message := m, explanation := Msg.plain badRequestExplanation, detail := m }

/-! ## The dispatch pipeline of `Resource.__call__`

`resourceCall` embeds wsgi.py lines 583-626.  The deserializer invocation
(line 583) happens before the `try`; the controller invocation (line 588)
is wrapped by the three `except` clauses; on success a serializer is
selected and dispatched on the result.  The outcomes of the deserializer
and controller invocations are passed in explicitly; the function returns
the call's outcome paired with the list of log messages emitted.  (The
`try` around serialization itself, lines 628-646, is not modelled: the
serializer dispatch outcome is abstracted as successful.) -/
inductive CallOutcome (α : Type) where
  | response (ser : Serializer) (result : α)
  | disguised (e : HTTPExc)
  | raised (e : PyExc)
deriving DecidableEq

/-- Embeds `Resource.__call__` from the deserializer invocation to the
serializer dispatch (wsgi.py lines 583-626). -/
def resourceCall {α : Type} (tr : String → String → String) (locale : String)
    (selfSerializer : Option Serializer) (r : Request)
    (deserOutcome : Except PyExc Unit) (ctrlOutcome : Except PyExc α) :
    CallOutcome α × List String :=
  match deserOutcome with
  | .error e => (.raised e, [])
  | .ok _ =>
    match ctrlOutcome with
    | .ok result => (.response (negotiated_serializer selfSerializer r) result, [])
    | .error (.typeErr s) =>
      let err := http_bad_request malformedRequestMsg
      match translate_exception tr locale (.httpExc err) with
      | .httpExc http_exc =>
        (.disguised http_exc, ["Exception handling resource: " ++ s])
      | e' => (.raised e', ["Exception handling resource: " ++ s])
    | .error (.httpExc e) =>
      if isOkOrRedirection e then (.raised (.httpExc e), [])
      else
        match translate_exception tr locale (.httpExc e) with
        | .httpExc http_exc => (.disguised http_exc, ["Returning error to user"])
        | e' => (.raised e', ["Returning error to user"])
    | .error e =>
      (.raised (translate_exception tr locale e), ["Unexpected error occurred serving API"])

/-! ## The retrying socket bind of `get_socket`

`get_socket` (wsgi.py lines 102-158) computes `retry_until = time.time() + 30`
and loops `while not sock and time.time() < retry_until`, attempting
`eventlet.listen`; on `EADDRINUSE` it sleeps 0.1 seconds and retries, on any
other socket error it re-raises, and if the loop ends without a socket it
raises the could-not-bind `RuntimeError`.  Time is discretized in tenths of
a second (the sleep granularity), so the 30-second window holds at most 300
attempts; `attempt t` is the outcome the operating system would give to a
bind attempt at time `t`. -/
inductive BindAttempt where
  | success
  | addrInUse
  | otherError (code : Nat)
deriving DecidableEq

/-- The errors `get_socket` can raise: the could-not-bind `RuntimeError`
after the retry window, or an immediately re-raised socket error. -/
inductive GetSocketErr where
  | bindTimeout
  | socketError (code : Nat)
deriving DecidableEq

/-- Embeds the bind loop of `get_socket` (wsgi.py lines 133-149): `fuel` is
the number of tenths of a second left before `retry_until`, `t` the current
time in tenths.  Returns the time at which the socket was bound, or the
error raised. -/
def get_socket_loop (attempt : Nat → BindAttempt) : Nat → Nat → Except GetSocketErr Nat
  | _, 0 => .error .bindTimeout
  | t, fuel + 1 =>
    match attempt t with
    | .success => .ok t
    | .otherError code => .error (.socketError code)
    | .addrInUse => get_socket_loop attempt (t + 1) fuel

/-- Embeds `get_socket` starting at time `t0` with its 30-second
(300-tenth) retry window. -/
def get_socket (attempt : Nat → BindAttempt) (t0 : Nat) : Except GetSocketErr Nat :=
  get_socket_loop attempt t0 300

/-! ## The worker supervisor's reap loop

`Server.wait_on_children` (wsgi.py lines 209-225) loops while the supervisor
is running: each `os.wait()` result whose status passes
`WIFEXITED or WIFSIGNALED` removes that pid from `self.children` and calls
`run_child()`, which forks and appends the new child's pid (lines 237-247);
`OSError`s with `EINTR`/`ECHILD` are ignored, any other `OSError` propagates
(skipping the socket shutdown below the loop); a `KeyboardInterrupt` logs
and breaks.  Both normal loop exits fall through to
`shutdown_safe(self.sock); self.sock.close()`.  The loop is embedded over
the finite trace of events observed while the supervisor is running; the
trace ending embeds `self.running` becoming false. -/
inductive ReapEvent where
  | childExit (pid : Nat) (exitedOrSignaled : Bool)
  | osError (code : Nat)
  | keyboardInterrupt
deriving DecidableEq

/-- The state after the reap loop returns normally: the final children list
and whether the shared socket was shut down and closed. -/
structure ReapResult where
  children : List Nat
  socketClosed : Bool
deriving DecidableEq

/-- Embeds `errno.EINTR`. -/
def EINTR : Nat := 4

/-- Embeds `errno.ECHILD`. -/
def ECHILD : Nat := 10

/-- Embeds `Server.wait_on_children` (wsgi.py lines 209-225) over an event
trace.  `fresh n` is the pid `os.fork` hands to the `n`-th `run_child`
spawn performed by the loop; an uncaught `OSError` code is returned as
`.error`. -/
def wait_on_children (fresh : Nat → Nat) : Nat → List Nat → List ReapEvent →
    Except Nat ReapResult
  | _, children, [] => .ok { children := children, socketClosed := true }
  | spawned, children, ev :: rest =>
    match ev with
    | .childExit pid exitedOrSignaled =>
      if exitedOrSignaled then
        wait_on_children fresh (spawned + 1) (children.erase pid ++ [fresh spawned]) rest
      else
        wait_on_children fresh spawned children rest
    | .osError code =>
      if code = EINTR || code = ECHILD then
        wait_on_children fresh spawned children rest
      else .error code
    | .keyboardInterrupt => .ok { children := children, socketClosed := true }

/-! ## Values and XML elements for the XML response serializer

`XMLResponseSerializer` (wsgi.py lines 502-536) serializes the structured
result values the controllers return: strings, integers, lists and
string-keyed mappings (embedded as association lists preserving insertion
order, the order `obj.items()` yields). -/
inductive JVal where
  | str (s : String)
  | int (n : Int)
  | arr (xs : List JVal)
  | obj (kvs : List (String × JVal))

/-- Embeds an `lxml.etree` element: its tag, its text (set at most once by
the serializer) and its child elements in document order. -/
structure Element where
  tag : String
  text : Option String
  children : List Element

/-- Embeds Python truthiness (`if value:`) for the serializable values. -/
def truthy : JVal → Bool
  | .str s => s ≠ ""
  | .int n => n ≠ 0
  | .arr xs => !xs.isEmpty
  | .obj kvs => !kvs.isEmpty

/-- Embeds `JSON_ONLY_KEYS` (wsgi.py line 499). -/
def JSON_ONLY_KEYS : List String := ["TemplateBody", "Metadata"]

/-- The left-brace character (written by code point to keep it out of
string literals). -/
def lbrace : Char := Char.ofNat 123

/-- The right-brace character. -/
def rbrace : Char := Char.ofNat 125

/-- Embeds the character escaping of Python's `json.dumps` (with its
default `ensure_ascii=True`): quotes, backslashes and the named control
characters get two-character escapes, all other control or non-ASCII
characters get `\uXXXX` escapes, and every other character stands for
itself. -/
def hexDigit (n : Nat) : Char :=
  if n < 10 then Char.ofNat (48 + n) else Char.ofNat (87 + n)

/-- Four-hex-digit rendering used by `\uXXXX` escapes. -/
def hex4 (n : Nat) : List Char :=
  [hexDigit (n / 4096 % 16), hexDigit (n / 256 % 16), hexDigit (n / 16 % 16), hexDigit (n % 16)]

/-- One `\uXXXX` escape unit. -/
def uEscape (n : Nat) : List Char :=
  '\\' :: 'u' :: hex4 n

/-- Escape of one character inside a JSON string literal.  Code points
beyond the Basic Multilingual Plane are rendered as a UTF-16 surrogate
pair of `\uXXXX` units, exactly as `json.dumps` does. -/
def escapeChar (c : Char) : List Char :=
  if c = '"' then ['\\', '"']
  else if c = '\\' then ['\\', '\\']
  else if c = '\n' then ['\\', 'n']
  else if c = '\t' then ['\\', 't']
  else if c = '\r' then ['\\', 'r']
  else if c = Char.ofNat 8 then ['\\', 'b']
  else if c = Char.ofNat 12 then ['\\', 'f']
  else if c.toNat < 32 || 127 ≤ c.toNat then
    if c.toNat < 65536 then uEscape c.toNat
    else uEscape (55296 + (c.toNat - 65536) / 1024) ++ uEscape (56320 + (c.toNat - 65536) % 1024)
  else [c]

/-- The characters of a JSON string literal's body. -/
def escapeString (s : String) : List Char :=
  (s.data.map escapeChar).flatten

/-- The characters of a serialized JSON object key followed by the
key-value separator (`json.dumps`'s default `": "`). -/
def dumpsKey (k : String) : List Char :=
  '"' :: escapeString k ++ ['"', ':', ' ']

/-- The decimal digit character for `d < 10`. -/
def digitChar (d : Nat) : Char :=
  Char.ofNat (48 + d)

/-- Big-endian decimal digits of a natural number (`fuel` bounds the
recursion; any `fuel` with `n < 10 ^ fuel` renders fully). -/
def natDecimal : Nat → Nat → List Char
  | 0, _ => []
  | fuel + 1, n => if n < 10 then [digitChar n] else natDecimal fuel (n / 10) ++ [digitChar (n % 10)]

/-- Embeds Python's decimal rendering of an integer (`json.dumps` renders
`int` values with `repr`): digits, with a leading minus sign when
negative. -/
def intDecimal : Int → List Char
  | Int.ofNat m => natDecimal (m + 1) m
  | Int.negSucc m => '-' :: natDecimal (m + 2) (m + 1)

mutual
/-- Embeds `json.dumps(value)` with its default separators (`", "` between
items, `": "` after keys), character by character. -/
def jsonDumpsChars : JVal → List Char
  | .str s => '"' :: escapeString s ++ ['"']
  | .int n => intDecimal n
  | .arr xs => '[' :: dumpsItems xs ++ [']']
  | .obj kvs => lbrace :: dumpsFields kvs ++ [rbrace]
/-- The items of a serialized JSON array, separated by `", "`. -/
def dumpsItems : List JVal → List Char
  | [] => []
  | x :: xs => jsonDumpsChars x ++ itemsTail xs
/-- The `", "`-prefixed items after the first one. -/
def itemsTail : List JVal → List Char
  | [] => []
  | x :: xs => ',' :: ' ' :: (jsonDumpsChars x ++ itemsTail xs)
/-- The fields of a serialized JSON object, separated by `", "`. -/
def dumpsFields : List (String × JVal) → List Char
  | [] => []
  | (k, v) :: kvs => dumpsKey k ++ jsonDumpsChars v ++ fieldsTail kvs
/-- The `", "`-prefixed fields after the first one. -/
def fieldsTail : List (String × JVal) → List Char
  | [] => []
  | (k, v) :: kvs => ',' :: ' ' :: (dumpsKey k ++ jsonDumpsChars v ++ fieldsTail kvs)
end

/-- Embeds `json.dumps(value)` as a string. -/
def jsonDumps (v : JVal) : String :=
  String.mk (jsonDumpsChars v)

mutual
/-- Embeds `XMLResponseSerializer.object_to_element(obj, element)` (wsgi.py
lines 504-523): lists append one `member` child per item, mappings append
one child per key — with the `JSON_ONLY_KEYS` holding their truthy values
as embedded JSON text instead of recursing — and scalars set the element's
text to their `str()` rendering.  (For these values `json.dumps` cannot
raise `TypeError`, so the `str(value)` fallback of lines 518-519 is never
taken.) -/
def object_to_element (obj : JVal) (e : Element) : Element :=
  match obj with
  | .str s => { e with text := some s }
  | .int n => { e with text := some (toString n) }
  | .arr xs => { e with children := e.children ++ memberElems xs }
  | .obj kvs => { e with children := e.children ++ fieldElems kvs }
/-- The `member` child elements built for a list's items. -/
def memberElems : List JVal → List Element
  | [] => []
  | x :: xs => object_to_element x ⟨"member", none, []⟩ :: memberElems xs
/-- The child elements built for a mapping's items. -/
def fieldElems : List (String × JVal) → List Element
  | [] => []
  | (k, v) :: kvs =>
    (if JSON_ONLY_KEYS.contains k then
      (if truthy v then Element.mk k (some (jsonDumps v)) [] else Element.mk k none [])
    else object_to_element v ⟨k, none, []⟩) :: fieldElems kvs
end

/-- Embeds `XMLResponseSerializer.to_xml(data)` (wsgi.py lines 525-532):
the first key of the mapping becomes the root element's tag and its value
is serialized beneath it; an empty mapping makes `data.keys()[0]` raise,
embedded as `none`. -/
def to_xml (data : List (String × JVal)) : Option Element :=
  match data with
  | [] => none
  | (root, v) :: _ => some (object_to_element v ⟨root, none, []⟩)

/-- A decimal digit character. -/
def isDigitChar (c : Char) : Bool :=
  48 ≤ c.toNat && c.toNat ≤ 57

/-- True when the list does not begin with a decimal digit (the contexts
that follow a serialized number: a separator, a closing delimiter or the
end of input). -/
def noDigitHead : List Char → Bool
  | [] => true
  | c :: _ => !isDigitChar c

/-- The value of one lowercase hexadecimal digit (the digits `json.dumps`
emits in `\uXXXX` escapes). -/
def hexDigitVal (c : Char) : Option Nat :=
  if 48 ≤ c.toNat ∧ c.toNat ≤ 57 then some (c.toNat - 48)
  else if 97 ≤ c.toNat ∧ c.toNat ≤ 102 then some (c.toNat - 87)
  else none

/-- Prepends a decoded character to a scanner result. -/
def mapCons (c : Char) : Option (List Char × List Char) → Option (List Char × List Char)
  | some (s, r) => some (c :: s, r)
  | none => none

/-- Consumes the leading run of decimal digits, folding them into the
accumulator, and returns the value with the unconsumed remainder. -/
def scanDigits : List Char → Nat → Nat × List Char
  | [], acc => (acc, [])
  | c :: cs, acc =>
    if isDigitChar c then scanDigits cs (acc * 10 + (c.toNat - 48)) else (acc, c :: cs)

mutual
/-- Fuel bound for the JSON parser on a value's serialization. -/
def jweight : JVal → Nat
  | .str _ => 1
  | .int _ => 1
  | .arr xs => 1 + jweightList xs
  | .obj kvs => 1 + jweightFields kvs
/-- Fuel bound for parsing an array's items. -/
def jweightList : List JVal → Nat
  | [] => 1
  | x :: xs => 1 + jweight x + jweightList xs
/-- Fuel bound for parsing an object's fields. -/
def jweightFields : List (String × JVal) → Nat
  | [] => 1
  | (_, v) :: kvs => 2 + jweight v + jweightFields kvs
end

/-- Decodes a `\uXXXX` escape's hex payload (the characters after `\u`):
four hex digits give one UTF-16 unit, and a high-surrogate unit must be
followed by a second `\uXXXX` low-surrogate unit, the pair combining into
one supplementary-plane character exactly as `json.loads` does.  Returns
the decoded character and how many input characters were consumed. -/
def decodeU : List Char → Option (Char × Nat)
  | h1 :: h2 :: h3 :: h4 :: cs2 =>
    match hexDigitVal h1, hexDigitVal h2, hexDigitVal h3, hexDigitVal h4 with
    | some a, some b, some a2, some b2 =>
      let m := a * 4096 + b * 256 + a2 * 16 + b2
      if 55296 ≤ m ∧ m < 56320 then
        match cs2 with
        | '\\' :: 'u' :: k1 :: k2 :: k3 :: k4 :: _ =>
          match hexDigitVal k1, hexDigitVal k2, hexDigitVal k3, hexDigitVal k4 with
          | some d1, some d2, some d3, some d4 =>
            let m2 := d1 * 4096 + d2 * 256 + d3 * 16 + d4
            if 56320 ≤ m2 ∧ m2 < 57344 then
              some (Char.ofNat (65536 + (m - 55296) * 1024 + (m2 - 56320)), 10)
            else none
          | _, _, _, _ => none
        | _ => none
      else if 56320 ≤ m ∧ m < 57344 then none
      else some (Char.ofNat m, 4)
    | _, _, _, _ => none
  | _ => none

/-- Decodes one escape sequence's body (the characters after the
backslash): the named two-character escapes and the `\uXXXX` units
`json.dumps` emits.  Returns the decoded character and how many input
characters were consumed. -/
def decodeEsc : List Char → Option (Char × Nat)
  | [] => none
  | e :: cs1 =>
    if e = '"' then some ('"', 1)
    else if e = '\\' then some ('\\', 1)
    else if e = 'n' then some ('\n', 1)
    else if e = 't' then some ('\t', 1)
    else if e = 'r' then some ('\r', 1)
    else if e = 'b' then some (Char.ofNat 8, 1)
    else if e = 'f' then some (Char.ofNat 12, 1)
    else if e = 'u' then
      match decodeU cs1 with
      | some (d, n) => some (d, n + 1)
      | none => none
    else none

/-- Scans the body of a JSON string literal up to its closing quote,
decoding the escape sequences `json.dumps` emits: the named two-character
escapes, single `\uXXXX` units, and UTF-16 surrogate pairs of two such
units for code points beyond the Basic Multilingual Plane. -/
def scanStr : List Char → Option (List Char × List Char)
  | [] => none
  | c :: cs =>
    if c = '"' then some ([], cs)
    else if c = '\\' then
      match decodeEsc cs with
      | some (d, n) => mapCons d (scanStr (cs.drop n))
      | none => none
    else
      mapCons c (scanStr cs)
termination_by l => l.length
decreasing_by
  · simp only [List.length_drop, List.length_cons]
    omega
  · simp only [List.length_cons]
    omega

mutual
/-- Parses one JSON value in `json.dumps`'s canonical rendering, returning
it with the unconsumed remainder.  `fuel` bounds the recursion depth. -/
def parseVal : Nat → List Char → Option (JVal × List Char)
  | 0, _ => none
  | _ + 1, [] => none
  | fuel + 1, c :: rest =>
    if c = '"' then
      match scanStr rest with
      | some (s, r) => some (.str (String.mk s), r)
      | none => none
    else if c = '[' then
      match rest with
      | [] => none
      | c2 :: r2 =>
        if c2 = ']' then some (.arr [], r2)
        else
          match parseVal fuel rest with
          | some (v, r) =>
            match parseTail fuel r with
            | some (vs, r') => some (.arr (v :: vs), r')
            | none => none
          | none => none
    else if c = lbrace then
      match rest with
      | [] => none
      | c2 :: _ =>
        if c2 = rbrace then some (.obj [], rest.tail)
        else
          match parseField fuel rest with
          | some (f, r) =>
            match parseFieldTail fuel r with
            | some (fs, r') => some (.obj (f :: fs), r')
            | none => none
          | none => none
    else if c = '-' then
      match rest with
      | d :: t =>
        if isDigitChar d then
          match scanDigits (d :: t) 0 with
          | (m, r) => some (.int (-(m : Int)), r)
        else none
      | [] => none
    else if isDigitChar c then
      match scanDigits (c :: rest) 0 with
      | (m, r) => some (.int (m : Int), r)
    else none
/-- Parses the `", "`-separated items after an array's first item, through
the closing bracket. -/
def parseTail : Nat → List Char → Option (List JVal × List Char)
  | 0, _ => none
  | _ + 1, [] => none
  | fuel + 1, c :: r =>
    if c = ']' then some ([], r)
    else if c = ',' then
      match r with
      | ' ' :: r' =>
        match parseVal fuel r' with
        | some (v, r'') =>
          match parseTail fuel r'' with
          | some (vs, r''') => some (v :: vs, r''')
          | none => none
        | none => none
      | _ => none
    else none
/-- Parses one `"key": value` field of an object. -/
def parseField : Nat → List Char → Option ((String × JVal) × List Char)
  | 0, _ => none
  | _ + 1, [] => none
  | fuel + 1, c :: rest =>
    if c = '"' then
      match scanStr rest with
      | some (k, r) =>
        match r with
        | ':' :: ' ' :: r' =>
          match parseVal fuel r' with
          | some (v, r'') => some ((String.mk k, v), r'')
          | none => none
        | _ => none
      | none => none
    else none
/-- Parses the `", "`-separated fields after an object's first field,
through the closing brace. -/
def parseFieldTail : Nat → List Char → Option (List (String × JVal) × List Char)
  | 0, _ => none
  | _ + 1, [] => none
  | fuel + 1, c :: r =>
    if c = rbrace then some ([], r)
    else if c = ',' then
      match r with
      | ' ' :: r' =>
        match parseField fuel r' with
        | some (f, r'') =>
          match parseFieldTail fuel r'' with
          | some (fs, r''') => some (f :: fs, r''')
          | none => none
        | none => none
      | _ => none
    else none
end

/-- Parses a complete JSON document in `json.dumps`'s canonical rendering
(the walker's inverse of `jsonDumps`). -/
def jsonParse (s : String) : Option JVal :=
  match parseVal (2 * s.data.length + 1) s.data with
  | some (v, []) => some v
  | _ => none

/-! ## Walking an XML tree back to the key/value tree -/

mutual
/-- The walk back from a serialized XML element to a value: an element
without children is a string leaf (its text), an element all of whose
children are `member` elements is a sequence, and any other element with
children is a mapping keyed by child tags, with the `JSON_ONLY_KEYS`
recovered by parsing their embedded JSON text. -/
def elementToObject : Element → JVal
  | ⟨_, text, []⟩ => .str (text.getD "")
  | ⟨_, _, c :: cs⟩ =>
    if (c :: cs).all (fun x => x.tag == "member") then .arr (elemsToList (c :: cs))
    else .obj (elemsToFields (c :: cs))
/-- Walks a sequence's `member` children back to its items. -/
def elemsToList : List Element → List JVal
  | [] => []
  | c :: cs => elementToObject c :: elemsToList cs
/-- Walks a mapping's children back to its fields. -/
def elemsToFields : List Element → List (String × JVal)
  | [] => []
  | c :: cs =>
    (c.tag,
      if JSON_ONLY_KEYS.contains c.tag then
        (match c.text with
        | some t => (jsonParse t).getD (JVal.str "")
        | none => JVal.str "")
      else elementToObject c) :: elemsToFields cs
end

mutual
/-- The fragment of values on which the XML serialization is invertible:
leaves are strings, sequences and mappings are nonempty, no mapping key is
`member`, and values under the `JSON_ONLY_KEYS` are truthy (the code only
embeds JSON text for truthy values; the embedded JSON itself is
unrestricted). -/
def xmlSafe : JVal → Bool
  | .str _ => true
  | .int _ => false
  | .arr xs => !xs.isEmpty && xmlSafeList xs
  | .obj kvs => !kvs.isEmpty && xmlSafeFields kvs
/-- Every item is `xmlSafe`. -/
def xmlSafeList : List JVal → Bool
  | [] => true
  | x :: xs => xmlSafe x && xmlSafeList xs
/-- Every key differs from `member` and every value is admissible. -/
def xmlSafeFields : List (String × JVal) → Bool
  | [] => true
  | (k, v) :: kvs =>
    !(k == "member")
    && (if JSON_ONLY_KEYS.contains k then truthy v else xmlSafe v)
    && xmlSafeFields kvs
end


/-! ## Helper lemmas for the socket bind loop -/

/-- If every attempt inside the remaining window hits `EADDRINUSE`, the loop
falls out and raises the could-not-bind error. -/
theorem get_socket_loop_all_busy (attempt : Nat → BindAttempt) :
    ∀ fuel t, (∀ u, t ≤ u → u < t + fuel → attempt u = BindAttempt.addrInUse) →
      get_socket_loop attempt t fuel = Except.error GetSocketErr.bindTimeout := by
  intro fuel
  induction fuel with
  | zero => intro t _; rfl
  | succ n ih =>
    intro t h
    have h0 : attempt t = BindAttempt.addrInUse := h t le_rfl (by omega)
    simp only [get_socket_loop, h0]
    exact ih (t + 1) (fun u hu1 hu2 => h u (by omega) (by omega))

/-- A socket is only ever returned from a successful attempt made inside the
remaining window, with every earlier attempt having been made first. -/
theorem get_socket_loop_ok (attempt : Nat → BindAttempt) :
    ∀ fuel t t', get_socket_loop attempt t fuel = Except.ok t' →
      attempt t' = BindAttempt.success ∧ t ≤ t' ∧ t' < t + fuel := by
  intro fuel
  induction fuel with
  | zero => intro t t' h; exact absurd h (by simp [get_socket_loop])
  | succ n ih =>
    intro t t' h
    cases ha : attempt t with
    | success =>
      simp only [get_socket_loop, ha, Except.ok.injEq] at h
      subst h
      exact ⟨ha, le_rfl, by omega⟩
    | addrInUse =>
      simp only [get_socket_loop, ha] at h
      obtain ⟨h1, h2, h3⟩ := ih (t + 1) t' h
      exact ⟨h1, by omega, by omega⟩
    | otherError c => simp [get_socket_loop, ha] at h

/-- The loop's result depends only on the attempts inside the window. -/
theorem get_socket_loop_congr (f g : Nat → BindAttempt) :
    ∀ fuel t, (∀ u, t ≤ u → u < t + fuel → f u = g u) →
      get_socket_loop f t fuel = get_socket_loop g t fuel := by
  intro fuel
  induction fuel with
  | zero => intro t _; rfl
  | succ n ih =>
    intro t h
    have h0 : f t = g t := h t le_rfl (by omega)
    simp only [get_socket_loop, ← h0]
    cases f t with
    | success => rfl
    | otherError c => rfl
    | addrInUse => exact ih (t + 1) (fun u hu1 hu2 => h u (by omega) (by omega))

/-- A non-`EADDRINUSE` socket error hit at any attempt inside the
remaining window, with every earlier attempt busy, is re-raised
immediately: the loop never retries past it. -/
theorem get_socket_loop_raises (attempt : Nat → BindAttempt) (code : Nat) :
    ∀ fuel t s, t ≤ s → s < t + fuel →
      (∀ u, t ≤ u → u < s → attempt u = BindAttempt.addrInUse) →
      attempt s = BindAttempt.otherError code →
      get_socket_loop attempt t fuel = Except.error (GetSocketErr.socketError code) := by
  intro fuel
  induction fuel with
  | zero => intro t s h1 h2 _ _; omega
  | succ n ih =>
    intro t s h1 h2 hpre hs
    by_cases hts : t = s
    · subst hts
      simp [get_socket_loop, hs]
    · have ht : attempt t = BindAttempt.addrInUse := hpre t le_rfl (by omega)
      simp only [get_socket_loop, ht]
      exact ih (t + 1) s (by omega) (by omega) (fun u hu1 hu2 => hpre u (by omega) hu2) hs

/-- C6: `get_socket` either returns a socket bound by a successful attempt
made inside the 30-second (300-tenth) window, or fails: if every attempt in
the window hits "address in use" it raises the bind error after the window;
an attempt anywhere in the window failing with any other socket error — the
attempts before it having hit "address in use" — re-raises that error
immediately, with no further retrying; and the result depends on nothing
outside the window, so the call never blocks past it. -/
theorem c6_get_socket_bounded_retry (attempt attempt' : Nat → BindAttempt)
    (t0 code : Nat) :
    ((∀ u, t0 ≤ u → u < t0 + 300 → attempt u = BindAttempt.addrInUse) →
       get_socket attempt t0 = Except.error GetSocketErr.bindTimeout)
    ∧ (∀ s, t0 ≤ s → s < t0 + 300 →
       (∀ u, t0 ≤ u → u < s → attempt u = BindAttempt.addrInUse) →
       attempt s = BindAttempt.otherError code →
       get_socket attempt t0 = Except.error (GetSocketErr.socketError code))
    ∧ (∀ t, get_socket attempt t0 = Except.ok t →
         attempt t = BindAttempt.success ∧ t0 ≤ t ∧ t < t0 + 300)
    ∧ ((∀ u, t0 ≤ u → u < t0 + 300 → attempt u = attempt' u) →
       get_socket attempt t0 = get_socket attempt' t0) := by
  refine ⟨?_, ?_, ?_, ?_⟩
  · exact fun h => get_socket_loop_all_busy attempt 300 t0 h
  · exact fun s h1 h2 hpre hs => get_socket_loop_raises attempt code 300 t0 s h1 h2 hpre hs
  · exact fun t h => get_socket_loop_ok attempt 300 t0 t h
  · exact fun h => get_socket_loop_congr attempt attempt' 300 t0 h

/-- Witness for C6 at concrete attempt traces: an always-busy trace raises
the bind error, and a trace busy for five tenths of a second and then
failing with socket error 13 raises that error at once, mid-window. -/
theorem c6_get_socket_bounded_retry_witness :
    get_socket (fun _ => BindAttempt.addrInUse) 0
        = Except.error GetSocketErr.bindTimeout
    ∧ get_socket (fun u => if u < 5 then BindAttempt.addrInUse else BindAttempt.otherError 13) 0
        = Except.error (GetSocketErr.socketError 13) :=
  ⟨(c6_get_socket_bounded_retry (fun _ => BindAttempt.addrInUse)
      (fun _ => BindAttempt.addrInUse) 0 13).1 (fun _ _ _ => rfl),
   (c6_get_socket_bounded_retry
      (fun u => if u < 5 then BindAttempt.addrInUse else BindAttempt.otherError 13)
      (fun u => if u < 5 then BindAttempt.addrInUse else BindAttempt.otherError 13) 0 13).2.1
      5 (by omega) (by omega) (fun u _ hu => if_pos hu) rfl⟩

/-- C7: while the supervisor is running, each observed child exit (normal or
signaled) removes exactly that child's handle from the children list and
spawns exactly one replacement, so the children count is preserved; with
`worker_count = 2`, one abnormal exit restores the count to 2 within one
iteration; and a keyboard interrupt exits the reap loop without spawning
replacements, with the shared socket shut down and closed. -/
theorem c7_reap_loop_respawn (fresh : Nat → Nat) (spawned : Nat) (children : List Nat)
    (pid : Nat) (rest : List ReapEvent)
    (hmem : pid ∈ children) (hnodup : children.Nodup) :
    (wait_on_children fresh spawned children (ReapEvent.childExit pid true :: rest)
       = wait_on_children fresh (spawned + 1) (children.erase pid ++ [fresh spawned]) rest)
    ∧ (children.erase pid ++ [fresh spawned]).length = children.length
    ∧ pid ∉ children.erase pid
    ∧ (∀ p1 p2 : Nat, p1 ≠ p2 →
         wait_on_children fresh spawned [p1, p2] [ReapEvent.childExit p1 true]
           = Except.ok { children := [p2, fresh spawned], socketClosed := true })
    ∧ wait_on_children fresh spawned children (ReapEvent.keyboardInterrupt :: rest)
        = Except.ok { children := children, socketClosed := true } := by
  refine ⟨rfl, ?_, ?_, ?_, rfl⟩
  · rw [List.length_append, List.length_erase_of_mem hmem]
    have := List.length_pos_of_mem hmem
    simp
    omega
  · intro hcontra
    exact absurd ((List.Nodup.mem_erase_iff hnodup).mp hcontra).1 (by simp)
  · intro p1 p2 _
    simp [wait_on_children, List.erase_cons_head]

/-- Witness for C7 with two live workers 1 and 2, worker 1 exiting. -/
theorem c7_reap_loop_respawn_witness :
    (wait_on_children (fun n => 100 + n) 0 [1, 2] (ReapEvent.childExit 1 true :: [])
       = wait_on_children (fun n => 100 + n) (0 + 1)
           (([1, 2] : List Nat).erase 1 ++ [(fun n => 100 + n) 0]) [])
    ∧ ((([1, 2] : List Nat).erase 1) ++ [(fun n => 100 + n) 0]).length
        = ([1, 2] : List Nat).length
    ∧ 1 ∉ (([1, 2] : List Nat).erase 1)
    ∧ (∀ p1 p2 : Nat, p1 ≠ p2 →
         wait_on_children (fun n => 100 + n) 0 [p1, p2] [ReapEvent.childExit p1 true]
           = Except.ok { children := [p2, (fun n => 100 + n) 0], socketClosed := true })
    ∧ wait_on_children (fun n => 100 + n) 0 [1, 2] (ReapEvent.keyboardInterrupt :: [])
        = Except.ok { children := [1, 2], socketClosed := true } :=
  c7_reap_loop_respawn (fun n => 100 + n) 0 [1, 2] 1 [] (by decide) (by decide)

/-- C1: when the `Resource` negotiates (it was constructed with
`serializer=None`), the response serializer is `JSONResponseSerializer` if
and only if the `ContentType` query parameter equals exactly `"JSON"`, and
the choice depends on nothing else about the request: any two requests
agreeing on that parameter get the same serializer, whatever their method,
headers, body or other query values. -/
theorem c1_serializer_json_only_on_param (r r' : Request)
    (h : paramsGet r "ContentType" = paramsGet r' "ContentType") :
    (negotiated_serializer none r = Serializer.jsonResponse ↔
       paramsGet r "ContentType" = some "JSON")
    ∧ negotiated_serializer none r = negotiated_serializer none r' := by
  constructor
  · by_cases hc : paramsGet r "ContentType" = some "JSON" <;>
      simp [negotiated_serializer, hc]
  · simp only [negotiated_serializer, h]

/-- Witness for C1: a bare GET with `ContentType=JSON` and a POST with an
XML `Content-Type` header but the same query parameter. -/
theorem c1_serializer_json_only_on_param_witness :
    (negotiated_serializer none ⟨"GET", "", [("ContentType", "JSON")], "", none⟩
        = Serializer.jsonResponse ↔
       paramsGet ⟨"GET", "", [("ContentType", "JSON")], "", none⟩ "ContentType"
        = some "JSON")
    ∧ negotiated_serializer none ⟨"GET", "", [("ContentType", "JSON")], "", none⟩
        = negotiated_serializer none
            ⟨"POST", "application/xml", [("ContentType", "JSON"), ("Foo", "1")], "zz", some 2⟩ :=
  c1_serializer_json_only_on_param
    ⟨"GET", "", [("ContentType", "JSON")], "", none⟩
    ⟨"POST", "application/xml", [("ContentType", "JSON"), ("Foo", "1")], "zz", some 2⟩
    (by decide)

/-- C10: a `Resource` constructed with an explicit serializer (as the
metrics API resource is) uses that serializer for every successful
response, independently of the request and in particular of the
`ContentType` query parameter; negotiation between the JSON and XML
response serializers happens only when the resource was constructed with
`serializer=None`, and then it only ever picks one of those two. -/
theorem c10_explicit_serializer_wins (tr : String → String → String) (locale : String)
    (s : Serializer) (r r' : Request) (a : Nat) :
    (resourceCall tr locale (some s) r (Except.ok ()) (Except.ok a)).1
      = CallOutcome.response s a
    ∧ negotiated_serializer (some s) r = negotiated_serializer (some s) r'
    ∧ (negotiated_serializer none r = Serializer.jsonResponse
       ∨ negotiated_serializer none r = Serializer.xmlResponse) := by
  refine ⟨rfl, rfl, ?_⟩
  by_cases h : paramsGet r "ContentType" = some "JSON"
  · exact Or.inl (by simp [negotiated_serializer, h])
  · exact Or.inr (by simp [negotiated_serializer, h])

/-- C2 counterexample: on a GET request with `Content-Type:
application/json`, a brace-initial body and positive content length, adding
`ContentType=XML` to the query string flips both `is_json_content_type` and
`has_body` from true to false — the query parameter does affect request-body
type detection. -/
theorem c2_counterexample_get_param_changes_parsing :
    is_json_content_type
        ⟨"GET", "application/json", [("ContentType", "XML")], "\x7b\x7d", some 2⟩ = false
    ∧ is_json_content_type
        ⟨"GET", "application/json", [], "\x7b\x7d", some 2⟩ = true
    ∧ has_body
        ⟨"GET", "application/json", [("ContentType", "XML")], "\x7b\x7d", some 2⟩ = false
    ∧ has_body
        ⟨"GET", "application/json", [], "\x7b\x7d", some 2⟩ = true := by
  decide

/-- C2 amended: for non-GET requests the `ContentType` query parameter never
affects request-body type detection — `is_json_content_type` and `has_body`
are invariant under any change of the query parameters; for GET requests the
parameter can change them (it replaces the `Content-Type` header in the
detection). -/
theorem c2_amended_param_body_parsing (r : Request) (q : List (String × String))
    (h : r.method ≠ "GET") :
    (is_json_content_type (withParams r q) = is_json_content_type r
      ∧ has_body (withParams r q) = has_body r)
    ∧ ∃ r' : Request, r'.method = "GET"
        ∧ has_body r' ≠ has_body (withoutParam r' "ContentType") := by
  constructor
  · constructor <;>
      simp [withParams, is_json_content_type, has_body, contentLengthPos,
        effective_content_type, h]
  · refine ⟨⟨"GET", "application/json", [("ContentType", "XML")], "\x7b\x7d", some 2⟩,
      rfl, ?_⟩
    decide

/-- Witness for C2 (amended) at a concrete POST request. -/
theorem c2_amended_param_body_parsing_witness :
    (is_json_content_type
         (withParams ⟨"POST", "application/json", [], "\x7b\x7d", some 2⟩
           [("ContentType", "XML")])
       = is_json_content_type ⟨"POST", "application/json", [], "\x7b\x7d", some 2⟩
      ∧ has_body
         (withParams ⟨"POST", "application/json", [], "\x7b\x7d", some 2⟩
           [("ContentType", "XML")])
       = has_body ⟨"POST", "application/json", [], "\x7b\x7d", some 2⟩)
    ∧ ∃ r' : Request, r'.method = "GET"
        ∧ has_body r' ≠ has_body (withoutParam r' "ContentType") :=
  c2_amended_param_body_parsing ⟨"POST", "application/json", [], "\x7b\x7d", some 2⟩
    [("ContentType", "XML")] (by decide)

/-- C3 counterexample: a GET request whose `Content-Type` header is
`application/json`, with positive content length and a brace-initial body,
but with a `ContentType=text/xml` query parameter, satisfies the claim's
characterization (the header disjunct holds) yet `has_body` is false,
because the query parameter replaces the header in the detection. -/
theorem c3_counterexample_header_overridden :
    spec_has_body_claim
        ⟨"GET", "application/json", [("ContentType", "text/xml")], "\x7b\x22a\x22: 1\x7d", some 8⟩
      = true
    ∧ has_body
        ⟨"GET", "application/json", [("ContentType", "text/xml")], "\x7b\x22a\x22: 1\x7d", some 8⟩
      = false := by
  decide

/-- C3 amended: `has_body` is true if and only if `Content-Length > 0`, the
effective content type — for GET requests a non-empty `ContentType` query
parameter replaces the `Content-Type` header — is `application/json` or
`JSON` or empty or `text/plain`-prefixed, and the raw body starts with a
left brace.  In particular, a GET request with `ContentType=JSON`, no
`Content-Type` header and an empty body has `has_body` false, and the same
request with a brace-initial JSON body has `has_body` true. -/
theorem c3_amended_has_body_iff :
    (∀ r : Request, has_body r = spec_has_body_amended r)
    ∧ has_body ⟨"GET", "", [("ContentType", "JSON")], "", none⟩ = false
    ∧ has_body
        ⟨"GET", "", [("ContentType", "JSON")], "\x7b\x22a\x22: \x22b\x22\x7d", some 10⟩
      = true := by
  refine ⟨fun r => ?_, by decide, by decide⟩
  unfold has_body spec_has_body_amended is_json_content_type
  by_cases h1 : effective_content_type r = ""
  · simp [h1, startswith]
  · by_cases h2 : startswith (effective_content_type r) "text/plain" = true
    · simp only [h1, h2, Bool.or_true, if_true, decide_eq_true_eq]
      simp
    · by_cases h3 : effective_content_type r = "JSON"
      · rw [h3] at h2 ⊢
        simp only [h2]
        simp
      · by_cases h4 : effective_content_type r = "application/json"
        · rw [h4] at h2 ⊢
          simp only [h2]
          simp
        · simp only [h1, h2, h3, h4]
          simp [h1, h2, h3, h4]

/-- C4 counterexample: a `TypeError` raised by the deserializer invocation
(step 3, wsgi.py line 583) happens before the `try` of lines 587-612, so it
propagates out of `Resource.__call__` as-is — it is not logged, not
converted to a 400 and not disguised. -/
theorem c4_counterexample_deserializer_typeerror_unhandled :
    (resourceCall (fun _ s => s) "en_US" none ⟨"GET", "", [], "", none⟩
        (Except.error (PyExc.typeErr "default() takes exactly 2 arguments (3 given)"))
        (Except.ok (0 : Nat)))
      = (CallOutcome.raised (PyExc.typeErr "default() takes exactly 2 arguments (3 given)"), [])
    ∧ ¬ ∃ e : HTTPExc,
        (resourceCall (fun _ s => s) "en_US" none ⟨"GET", "", [], "", none⟩
            (Except.error (PyExc.typeErr "default() takes exactly 2 arguments (3 given)"))
            (Except.ok (0 : Nat))).1
          = CallOutcome.disguised e := by
  refine ⟨rfl, ?_⟩
  rintro ⟨e, he⟩
  simp [resourceCall] at he

/-- C4 amended: a `TypeError` raised by the controller invocation (step 4)
is logged, converted to a `400 Bad Request` carrying the fixed
malformed-request message, translated to the request's locale (message and
explanation become the localized fixed message, the detail is cleared) and
disguised; but a `TypeError` raised by the deserializer invocation (step 3)
is not caught by `Resource.__call__` and propagates unhandled. -/
theorem c4_amended_controller_typeerror_disguised (tr : String → String → String)
    (locale : String) (selfSerializer : Option Serializer) (r : Request) (s : String)
    (ctrl : Except PyExc Nat) :
    resourceCall tr locale selfSerializer r (Except.ok ())
        (Except.error (PyExc.typeErr s) : Except PyExc Nat)
      = (CallOutcome.disguised
          ⟨400, get_localized_message tr locale malformedRequestMsg,
            get_localized_message tr locale malformedRequestMsg, Msg.plain ""⟩,
         ["Exception handling resource: " ++ s])
    ∧ resourceCall tr locale selfSerializer r
        (Except.error (PyExc.typeErr s)) ctrl
      = (CallOutcome.raised (PyExc.typeErr s), []) := by
  refine ⟨?_, rfl⟩
  simp [resourceCall, translate_exception, isHTTPError, http_bad_request,
    translateHTTPError, isMessage, get_localized_message, malformedRequestMsg]

/-- C5 counterexample: a non-HTTP exception raised by the controller (here a
`ValueError`) propagates out of `Resource.__call__` still as that non-HTTP
exception — `translate_exception` only localizes its message and the code
never wraps it in an HTTP 5xx error before re-raising. -/
theorem c5_counterexample_no_5xx_conversion :
    (resourceCall (fun _ s => s) "en_US" none ⟨"GET", "", [], "", none⟩
        (Except.ok ())
        (Except.error (PyExc.otherExc "ValueError" (Msg.plain "boom")) : Except PyExc Nat)).1
      = CallOutcome.raised (PyExc.otherExc "ValueError" (Msg.plain "boom"))
    ∧ (¬ ∃ e : HTTPExc,
        (resourceCall (fun _ s => s) "en_US" none ⟨"GET", "", [], "", none⟩
            (Except.ok ())
            (Except.error (PyExc.otherExc "ValueError" (Msg.plain "boom")) : Except PyExc Nat)).1
          = CallOutcome.raised (PyExc.httpExc e))
    ∧ (¬ ∃ e : HTTPExc,
        (resourceCall (fun _ s => s) "en_US" none ⟨"GET", "", [], "", none⟩
            (Except.ok ())
            (Except.error (PyExc.otherExc "ValueError" (Msg.plain "boom")) : Except PyExc Nat)).1
          = CallOutcome.disguised e) := by
  refine ⟨rfl, ?_, ?_⟩ <;> rintro ⟨e, he⟩ <;> simp [resourceCall, translate_exception,
    get_localized_message] at he

/-- C5 amended: an exception from the controller that is neither a webob
HTTP exception nor a `TypeError` is logged and re-raised with its message
localized by `translate_exception`; it leaves `Resource.__call__` still as
a non-HTTP exception (the generic 500 response is produced by the
surrounding WSGI machinery, not inside `Resource.__call__`). -/
theorem c5_amended_non_http_logged_localized (tr : String → String → String)
    (locale : String) (selfSerializer : Option Serializer) (r : Request)
    (name : String) (m : Msg) :
    resourceCall tr locale selfSerializer r (Except.ok ())
        (Except.error (PyExc.otherExc name m) : Except PyExc Nat)
      = (CallOutcome.raised (PyExc.otherExc name (get_localized_message tr locale m)),
         ["Unexpected error occurred serving API"]) := by
  rfl

/-- C9: for every HTTP error handed to `translate_exception`, the result is
an HTTP error with the same status code whose message is localized; if the
explanation was not a translatable `Message` (webob's generic default) the
explanation becomes the localized message and the detail is cleared, and
otherwise explanation and detail are localized independently. -/
theorem c9_translate_exception_http_error (tr : String → String → String)
    (locale : String) (e : HTTPExc) (h : isHTTPError e = true) :
    ∃ e' : HTTPExc,
      translate_exception tr locale (PyExc.httpExc e) = PyExc.httpExc e'
      ∧ e'.code = e.code
      ∧ e'.message = get_localized_message tr locale e.message
      ∧ (isMessage e.explanation = false →
          e'.explanation = get_localized_message tr locale e.message
          ∧ e'.detail = Msg.plain "")
      ∧ (isMessage e.explanation = true →
          e'.explanation = get_localized_message tr locale e.explanation
          ∧ e'.detail = get_localized_message tr locale e.detail) := by
  refine ⟨translateHTTPError tr locale e, by simp [translate_exception, h], ?_, ?_, ?_, ?_⟩ <;>
    cases hm : isMessage e.explanation <;>
    simp [translateHTTPError, hm]

/-- Witness for C9: a 404 whose message is translatable and whose
explanation is webob's plain default. -/
theorem c9_translate_exception_http_error_witness :
    ∃ e' : HTTPExc,
      translate_exception (fun _ s => s ++ "!") "de"
          (PyExc.httpExc ⟨404, Msg.message "not found", Msg.plain "generic", Msg.plain "d"⟩)
        = PyExc.httpExc e'
      ∧ e'.code = (⟨404, Msg.message "not found", Msg.plain "generic", Msg.plain "d"⟩ : HTTPExc).code
      ∧ e'.message = get_localized_message (fun _ s => s ++ "!") "de"
          (⟨404, Msg.message "not found", Msg.plain "generic", Msg.plain "d"⟩ : HTTPExc).message
      ∧ (isMessage (⟨404, Msg.message "not found", Msg.plain "generic", Msg.plain "d"⟩ : HTTPExc).explanation = false →
          e'.explanation = get_localized_message (fun _ s => s ++ "!") "de"
            (⟨404, Msg.message "not found", Msg.plain "generic", Msg.plain "d"⟩ : HTTPExc).message
          ∧ e'.detail = Msg.plain "")
      ∧ (isMessage (⟨404, Msg.message "not found", Msg.plain "generic", Msg.plain "d"⟩ : HTTPExc).explanation = true →
          e'.explanation = get_localized_message (fun _ s => s ++ "!") "de"
            (⟨404, Msg.message "not found", Msg.plain "generic", Msg.plain "d"⟩ : HTTPExc).explanation
          ∧ e'.detail = get_localized_message (fun _ s => s ++ "!") "de"
            (⟨404, Msg.message "not found", Msg.plain "generic", Msg.plain "d"⟩ : HTTPExc).detail) :=
  c9_translate_exception_http_error (fun _ s => s ++ "!") "de"
    ⟨404, Msg.message "not found", Msg.plain "generic", Msg.plain "d"⟩ (by decide)

/-! ## Round-trip of the JSON walker over `json.dumps` output -/

/-- Every parser fuel bound is positive. -/
theorem jweight_pos (v : JVal) : 1 ≤ jweight v := by
  cases v <;> simp [jweight] <;> omega

/-- List fuel bounds are positive. -/
theorem jweightList_pos (xs : List JVal) : 1 ≤ jweightList xs := by
  cases xs <;> simp [jweightList] <;> omega

/-- Field fuel bounds are positive. -/
theorem jweightFields_pos (kvs : List (String × JVal)) : 1 ≤ jweightFields kvs := by
  cases kvs with
  | nil => simp [jweightFields]
  | cons kv kvs => obtain ⟨k, v⟩ := kv; simp [jweightFields]; omega

/-- The code-point validity every `Char` carries: below the surrogate
range, or above it and below `0x110000`. -/
theorem char_toNat_valid (c : Char) :
    c.toNat < 55296 ∨ (57344 ≤ c.toNat ∧ c.toNat < 1114112) := c.valid

/-- Decoding inverts the hexadecimal digit rendering. -/
theorem hexDigitVal_hexDigit (d : Nat) (h : d < 16) : hexDigitVal (hexDigit d) = some d := by
  interval_cases d <;> decide

/-- Unfold of the scanner on the closing quote. -/
theorem scanStr_quote (cs : List Char) : scanStr ('"' :: cs) = some ([], cs) := by
  simp [scanStr]

/-- Unfold of the scanner on an unescaped character. -/
theorem scanStr_other (c : Char) (cs : List Char) (h1 : c ≠ '"') (h2 : c ≠ '\\') :
    scanStr (c :: cs) = mapCons c (scanStr cs) := by
  simp only [scanStr]
  rw [if_neg h1, if_neg h2]

/-- Unfold of the scanner on a backslash whose escape body decodes. -/
theorem scanStr_esc (cs : List Char) (d : Char) (n : Nat)
    (h : decodeEsc cs = some (d, n)) :
    scanStr ('\\' :: cs) = mapCons d (scanStr (cs.drop n)) := by
  simp [scanStr, h]

/-- Decoding one named (single-character-body) escape and continuing. -/
theorem scanStr_esc1 (X C : Char) (l s r : List Char)
    (hd : decodeEsc (X :: l) = some (C, 1))
    (h : scanStr l = some (s, r)) :
    scanStr ('\\' :: X :: l) = some (C :: s, r) := by
  rw [scanStr_esc (X :: l) C 1 hd]
  simp only [List.drop_succ_cons, List.drop_zero]
  rw [h]
  rfl

/-- Unfold of the escape decoder on a single `\uXXXX` payload outside the
surrogate ranges. -/
theorem decodeU_single (a b a2 b2 : Nat) (h1 h2 h3 h4 : Char) (cs2 : List Char)
    (e1 : hexDigitVal h1 = some a) (e2 : hexDigitVal h2 = some b)
    (e3 : hexDigitVal h3 = some a2) (e4 : hexDigitVal h4 = some b2)
    (hno : ¬(55296 ≤ a * 4096 + b * 256 + a2 * 16 + b2
        ∧ a * 4096 + b * 256 + a2 * 16 + b2 < 56320))
    (hno2 : ¬(56320 ≤ a * 4096 + b * 256 + a2 * 16 + b2
        ∧ a * 4096 + b * 256 + a2 * 16 + b2 < 57344)) :
    decodeU (h1 :: h2 :: h3 :: h4 :: cs2)
      = some (Char.ofNat (a * 4096 + b * 256 + a2 * 16 + b2), 4) := by
  simp only [decodeU, e1, e2, e3, e4]
  rw [if_neg hno, if_neg hno2]

/-- Unfold of the escape decoder on a surrogate pair's payload. -/
theorem decodeU_pair (a b a2 b2 d1 d2 d3 d4 : Nat) (h1 h2 h3 h4 k1 k2 k3 k4 : Char)
    (cs3 : List Char)
    (e1 : hexDigitVal h1 = some a) (e2 : hexDigitVal h2 = some b)
    (e3 : hexDigitVal h3 = some a2) (e4 : hexDigitVal h4 = some b2)
    (f1 : hexDigitVal k1 = some d1) (f2 : hexDigitVal k2 = some d2)
    (f3 : hexDigitVal k3 = some d3) (f4 : hexDigitVal k4 = some d4)
    (hhi : 55296 ≤ a * 4096 + b * 256 + a2 * 16 + b2
        ∧ a * 4096 + b * 256 + a2 * 16 + b2 < 56320)
    (hlo : 56320 ≤ d1 * 4096 + d2 * 256 + d3 * 16 + d4
        ∧ d1 * 4096 + d2 * 256 + d3 * 16 + d4 < 57344) :
    decodeU (h1 :: h2 :: h3 :: h4 :: '\\' :: 'u' :: k1 :: k2 :: k3 :: k4 :: cs3)
      = some (Char.ofNat (65536 + (a * 4096 + b * 256 + a2 * 16 + b2 - 55296) * 1024
          + (d1 * 4096 + d2 * 256 + d3 * 16 + d4 - 56320)), 10) := by
  simp only [decodeU, e1, e2, e3, e4]
  rw [if_pos hhi]
  simp only [f1, f2, f3, f4]
  rw [if_pos hlo]

/-- Unfold of the scanner on a single `\uXXXX` unit outside the surrogate
ranges. -/
theorem scanStr_u_single (a b a2 b2 : Nat) (h1 h2 h3 h4 : Char) (cs2 : List Char)
    (e1 : hexDigitVal h1 = some a) (e2 : hexDigitVal h2 = some b)
    (e3 : hexDigitVal h3 = some a2) (e4 : hexDigitVal h4 = some b2)
    (hno : ¬(55296 ≤ a * 4096 + b * 256 + a2 * 16 + b2
        ∧ a * 4096 + b * 256 + a2 * 16 + b2 < 56320))
    (hno2 : ¬(56320 ≤ a * 4096 + b * 256 + a2 * 16 + b2
        ∧ a * 4096 + b * 256 + a2 * 16 + b2 < 57344)) :
    scanStr ('\\' :: 'u' :: h1 :: h2 :: h3 :: h4 :: cs2)
      = mapCons (Char.ofNat (a * 4096 + b * 256 + a2 * 16 + b2)) (scanStr cs2) := by
  have hd : decodeEsc ('u' :: h1 :: h2 :: h3 :: h4 :: cs2)
      = some (Char.ofNat (a * 4096 + b * 256 + a2 * 16 + b2), 5) := by
    simp [decodeEsc, decodeU_single a b a2 b2 h1 h2 h3 h4 cs2 e1 e2 e3 e4 hno hno2]
  rw [scanStr_esc _ _ _ hd]
  rfl

/-- Unfold of the scanner on a surrogate pair of `\uXXXX` units. -/
theorem scanStr_u_pair (a b a2 b2 d1 d2 d3 d4 : Nat) (h1 h2 h3 h4 k1 k2 k3 k4 : Char)
    (cs3 : List Char)
    (e1 : hexDigitVal h1 = some a) (e2 : hexDigitVal h2 = some b)
    (e3 : hexDigitVal h3 = some a2) (e4 : hexDigitVal h4 = some b2)
    (f1 : hexDigitVal k1 = some d1) (f2 : hexDigitVal k2 = some d2)
    (f3 : hexDigitVal k3 = some d3) (f4 : hexDigitVal k4 = some d4)
    (hhi : 55296 ≤ a * 4096 + b * 256 + a2 * 16 + b2
        ∧ a * 4096 + b * 256 + a2 * 16 + b2 < 56320)
    (hlo : 56320 ≤ d1 * 4096 + d2 * 256 + d3 * 16 + d4
        ∧ d1 * 4096 + d2 * 256 + d3 * 16 + d4 < 57344) :
    scanStr ('\\' :: 'u' :: h1 :: h2 :: h3 :: h4 :: '\\' :: 'u' :: k1 :: k2 :: k3 :: k4 :: cs3)
      = mapCons (Char.ofNat (65536 + (a * 4096 + b * 256 + a2 * 16 + b2 - 55296) * 1024
          + (d1 * 4096 + d2 * 256 + d3 * 16 + d4 - 56320))) (scanStr cs3) := by
  have hd : decodeEsc ('u' :: h1 :: h2 :: h3 :: h4 :: '\\' :: 'u' :: k1 :: k2 :: k3 :: k4 :: cs3)
      = some (Char.ofNat (65536 + (a * 4096 + b * 256 + a2 * 16 + b2 - 55296) * 1024
          + (d1 * 4096 + d2 * 256 + d3 * 16 + d4 - 56320)), 11) := by
    simp [decodeEsc,
      decodeU_pair a b a2 b2 d1 d2 d3 d4 h1 h2 h3 h4 k1 k2 k3 k4 cs3
        e1 e2 e3 e4 f1 f2 f3 f4 hhi hlo]
  rw [scanStr_esc _ _ _ hd]
  rfl

/-- Decoding one escaped character: whatever `escapeChar` emitted, the
scanner decodes it back and continues. -/
theorem scanStr_escapeChar (c : Char) (l : List Char) (s r : List Char)
    (h : scanStr l = some (s, r)) :
    scanStr (escapeChar c ++ l) = some (c :: s, r) := by
  unfold escapeChar
  by_cases h1 : c = '"'
  · subst h1
    exact scanStr_esc1 '"' '"' l s r rfl h
  · rw [if_neg h1]
    by_cases h2 : c = '\\'
    · subst h2
      exact scanStr_esc1 '\\' '\\' l s r rfl h
    · rw [if_neg h2]
      by_cases h3 : c = '\n'
      · subst h3
        exact scanStr_esc1 'n' '\n' l s r rfl h
      · rw [if_neg h3]
        by_cases h4 : c = '\t'
        · subst h4
          exact scanStr_esc1 't' '\t' l s r rfl h
        · rw [if_neg h4]
          by_cases h5 : c = '\r'
          · subst h5
            exact scanStr_esc1 'r' '\r' l s r rfl h
          · rw [if_neg h5]
            by_cases h6 : c = Char.ofNat 8
            · subst h6
              exact scanStr_esc1 'b' (Char.ofNat 8) l s r rfl h
            · rw [if_neg h6]
              by_cases h7 : c = Char.ofNat 12
              · subst h7
                exact scanStr_esc1 'f' (Char.ofNat 12) l s r rfl h
              · rw [if_neg h7]
                by_cases h8 : (c.toNat < 32 || 127 ≤ c.toNat) = true
                · rw [if_pos h8]
                  have hval := char_toNat_valid c
                  by_cases h9 : c.toNat < 65536
                  · rw [if_pos h9]
                    show scanStr ('\\' :: 'u' :: hexDigit (c.toNat / 4096 % 16)
                        :: hexDigit (c.toNat / 256 % 16) :: hexDigit (c.toNat / 16 % 16)
                        :: hexDigit (c.toNat % 16) :: l) = some (c :: s, r)
                    rw [scanStr_u_single (c.toNat / 4096 % 16) (c.toNat / 256 % 16)
                      (c.toNat / 16 % 16) (c.toNat % 16) _ _ _ _ l
                      (hexDigitVal_hexDigit _ (Nat.mod_lt _ (by norm_num)))
                      (hexDigitVal_hexDigit _ (Nat.mod_lt _ (by norm_num)))
                      (hexDigitVal_hexDigit _ (Nat.mod_lt _ (by norm_num)))
                      (hexDigitVal_hexDigit _ (Nat.mod_lt _ (by norm_num)))
                      (by omega) (by omega)]
                    rw [show c.toNat / 4096 % 16 * 4096 + c.toNat / 256 % 16 * 256
                        + c.toNat / 16 % 16 * 16 + c.toNat % 16 = c.toNat from by omega,
                      Char.ofNat_toNat, h]
                    rfl
                  · rw [if_neg h9]
                    show scanStr ('\\' :: 'u'
                        :: hexDigit ((55296 + (c.toNat - 65536) / 1024) / 4096 % 16)
                        :: hexDigit ((55296 + (c.toNat - 65536) / 1024) / 256 % 16)
                        :: hexDigit ((55296 + (c.toNat - 65536) / 1024) / 16 % 16)
                        :: hexDigit ((55296 + (c.toNat - 65536) / 1024) % 16)
                        :: '\\' :: 'u'
                        :: hexDigit ((56320 + (c.toNat - 65536) % 1024) / 4096 % 16)
                        :: hexDigit ((56320 + (c.toNat - 65536) % 1024) / 256 % 16)
                        :: hexDigit ((56320 + (c.toNat - 65536) % 1024) / 16 % 16)
                        :: hexDigit ((56320 + (c.toNat - 65536) % 1024) % 16)
                        :: l) = some (c :: s, r)
                    have hq : (c.toNat - 65536) / 1024 < 1024 := by omega
                    have hrem : (c.toNat - 65536) % 1024 < 1024 :=
                      Nat.mod_lt _ (by norm_num)
                    rw [scanStr_u_pair
                      ((55296 + (c.toNat - 65536) / 1024) / 4096 % 16)
                      ((55296 + (c.toNat - 65536) / 1024) / 256 % 16)
                      ((55296 + (c.toNat - 65536) / 1024) / 16 % 16)
                      ((55296 + (c.toNat - 65536) / 1024) % 16)
                      ((56320 + (c.toNat - 65536) % 1024) / 4096 % 16)
                      ((56320 + (c.toNat - 65536) % 1024) / 256 % 16)
                      ((56320 + (c.toNat - 65536) % 1024) / 16 % 16)
                      ((56320 + (c.toNat - 65536) % 1024) % 16)
                      _ _ _ _ _ _ _ _ l
                      (hexDigitVal_hexDigit _ (Nat.mod_lt _ (by norm_num)))
                      (hexDigitVal_hexDigit _ (Nat.mod_lt _ (by norm_num)))
                      (hexDigitVal_hexDigit _ (Nat.mod_lt _ (by norm_num)))
                      (hexDigitVal_hexDigit _ (Nat.mod_lt _ (by norm_num)))
                      (hexDigitVal_hexDigit _ (Nat.mod_lt _ (by norm_num)))
                      (hexDigitVal_hexDigit _ (Nat.mod_lt _ (by norm_num)))
                      (hexDigitVal_hexDigit _ (Nat.mod_lt _ (by norm_num)))
                      (hexDigitVal_hexDigit _ (Nat.mod_lt _ (by norm_num)))
                      (by omega) (by omega)]
                    rw [show 65536 + ((55296 + (c.toNat - 65536) / 1024) / 4096 % 16 * 4096
                        + (55296 + (c.toNat - 65536) / 1024) / 256 % 16 * 256
                        + (55296 + (c.toNat - 65536) / 1024) / 16 % 16 * 16
                        + (55296 + (c.toNat - 65536) / 1024) % 16 - 55296) * 1024
                        + ((56320 + (c.toNat - 65536) % 1024) / 4096 % 16 * 4096
                        + (56320 + (c.toNat - 65536) % 1024) / 256 % 16 * 256
                        + (56320 + (c.toNat - 65536) % 1024) / 16 % 16 * 16
                        + (56320 + (c.toNat - 65536) % 1024) % 16 - 56320)
                        = c.toNat from by omega,
                      Char.ofNat_toNat, h]
                    rfl
                · rw [if_neg h8]
                  show scanStr (c :: l) = some (c :: s, r)
                  rw [scanStr_other c l h1 h2, h]
                  rfl

/-- The scanner decodes a whole escaped character list back. -/
theorem scanStr_escapeList (l rest : List Char) :
    scanStr ((l.map escapeChar).flatten ++ '"' :: rest) = some (l, rest) := by
  induction l with
  | nil => exact scanStr_quote rest
  | cons c cs ih =>
    simp only [List.map_cons, List.flatten_cons, List.append_assoc]
    exact scanStr_escapeChar c ((cs.map escapeChar).flatten ++ '"' :: rest) cs rest ih

/-- The scanner decodes a serialized string body back to the string's
characters, for every string. -/
theorem scanStr_dumps (s : String) (rest : List Char) :
    scanStr (escapeString s ++ '"' :: rest) = some (s.data, rest) :=
  scanStr_escapeList s.data rest

/-- The code point of a decimal digit character. -/
theorem digitChar_toNat (d : Nat) (h : d < 10) : (digitChar d).toNat = 48 + d := by
  interval_cases d <;> decide

/-- Decimal digit characters pass the digit test. -/
theorem isDigitChar_digitChar (d : Nat) (h : d < 10) : isDigitChar (digitChar d) = true := by
  interval_cases d <;> decide

/-- Every character of a decimal rendering is a digit. -/
theorem natDecimal_digits : ∀ fuel n : Nat, ∀ c ∈ natDecimal fuel n, isDigitChar c = true := by
  intro fuel
  induction fuel with
  | zero => intro n c hc; simp [natDecimal] at hc
  | succ f ih =>
    intro n c hc
    by_cases h : n < 10
    · simp only [natDecimal, if_pos h, List.mem_singleton] at hc
      subst hc
      exact isDigitChar_digitChar n h
    · simp only [natDecimal, if_neg h, List.mem_append, List.mem_singleton] at hc
      rcases hc with hc | hc
      · exact ih (n / 10) c hc
      · subst hc
        exact isDigitChar_digitChar _ (Nat.mod_lt _ (by norm_num))

/-- A decimal rendering with positive fuel is nonempty. -/
theorem natDecimal_ne_nil (fuel n : Nat) (h : 0 < fuel) : natDecimal fuel n ≠ [] := by
  match fuel with
  | f + 1 => by_cases hn : n < 10 <;> simp [natDecimal, hn]

/-- A digit character differs from every delimiter the parser dispatches
on. -/
theorem isDigitChar_head_facts (d : Char) (h : isDigitChar d = true) :
    d ≠ '"' ∧ d ≠ '[' ∧ d ≠ lbrace ∧ d ≠ '-' ∧ d ≠ ']' := by
  refine ⟨?_, ?_, ?_, ?_, ?_⟩ <;> intro heq <;> rw [heq] at h <;> exact absurd h (by decide)

/-- The digit scanner consumes exactly a leading run of digits, folding
them into the accumulator. -/
theorem scanDigits_append (A : List Char) : ∀ (B : List Char) (acc : Nat),
    (∀ c ∈ A, isDigitChar c = true) → noDigitHead B = true →
    scanDigits (A ++ B) acc = (A.foldl (fun a c => a * 10 + (c.toNat - 48)) acc, B) := by
  induction A with
  | nil =>
    intro B acc _ hB
    match B with
    | [] => rfl
    | c :: B' =>
      simp only [noDigitHead, Bool.not_eq_eq_eq_not, Bool.not_true] at hB
      simp [scanDigits, hB]
  | cons d A ih =>
    intro B acc hA hB
    have hd := hA d (by simp)
    simp only [List.cons_append, scanDigits, hd, if_true, List.foldl_cons]
    exact ih B _ (fun c hc => hA c (by simp [hc])) hB

/-- Folding the decimal digits of `n` over the accumulator recovers `n`
(shifted past the accumulator). -/
theorem foldl_natDecimal : ∀ fuel n acc : Nat, n < 10 ^ fuel →
    (natDecimal fuel n).foldl (fun a c => a * 10 + (c.toNat - 48)) acc
      = acc * 10 ^ (natDecimal fuel n).length + n := by
  intro fuel
  induction fuel with
  | zero =>
    intro n acc h
    interval_cases n
    simp [natDecimal]
  | succ f ih =>
    intro n acc h
    by_cases hn : n < 10
    · simp only [natDecimal, if_pos hn, List.foldl_cons, List.foldl_nil, List.length_cons,
        List.length_nil]
      rw [digitChar_toNat n hn, pow_one]
      omega
    · have h10 : n / 10 < 10 ^ f := by
        rw [Nat.div_lt_iff_lt_mul (by norm_num)]
        calc n < 10 ^ (f + 1) := h
        _ = 10 ^ f * 10 := by rw [pow_succ]
      simp only [natDecimal, if_neg hn, List.foldl_append, List.foldl_cons, List.foldl_nil,
        List.length_append, List.length_cons, List.length_nil]
      rw [ih (n / 10) acc h10, digitChar_toNat (n % 10) (Nat.mod_lt _ (by norm_num))]
      have harith : (acc * 10 ^ (natDecimal f (n / 10)).length + n / 10) * 10 + (48 + n % 10 - 48)
          = acc * (10 ^ (natDecimal f (n / 10)).length * 10) + (n / 10 * 10 + n % 10) := by
        have hsub : 48 + n % 10 - 48 = n % 10 := by omega
        rw [hsub]; ring
      rw [harith, pow_succ]
      omega

/-- Scanning the decimal rendering of `n` followed by a non-digit
remainder yields `n` and that remainder. -/
theorem scanDigits_natDecimal (fuel n : Nat) (h : n < 10 ^ fuel) (B : List Char)
    (hB : noDigitHead B = true) :
    scanDigits (natDecimal fuel n ++ B) 0 = (n, B) := by
  rw [scanDigits_append (natDecimal fuel n) B 0 (natDecimal_digits fuel n) hB,
    foldl_natDecimal fuel n 0 h]
  simp

/-- The fuel bound `n < 10 ^ (n + 1)` for decimal rendering. -/
theorem lt_ten_pow_succ (n : Nat) : n < 10 ^ (n + 1) :=
  lt_of_lt_of_le (Nat.lt_pow_self (by norm_num) n)
    (Nat.pow_le_pow_right (by norm_num) (by omega))

/-- Every serialization starts with a quote, a bracket, a brace, a minus
sign or a digit — never with `]`. -/
theorem jsonDumps_head (v : JVal) :
    ∃ c cs, jsonDumpsChars v = c :: cs ∧ c ≠ ']' := by
  cases v with
  | str s => exact ⟨'"', _, rfl, by decide⟩
  | int ni =>
    match ni with
    | Int.ofNat m =>
      obtain ⟨d, ds, hd⟩ := List.exists_cons_of_ne_nil (natDecimal_ne_nil (m + 1) m (by omega))
      refine ⟨d, ds, ?_, ?_⟩
      · rw [show jsonDumpsChars (JVal.int (Int.ofNat m)) = natDecimal (m + 1) m from rfl, hd]
      · have hdig : isDigitChar d = true := natDecimal_digits (m + 1) m d (by rw [hd]; simp)
        exact (isDigitChar_head_facts d hdig).2.2.2.2
    | Int.negSucc m =>
      exact ⟨'-', _, rfl, by decide⟩
  | arr xs => exact ⟨'[', _, rfl, by decide⟩
  | obj kvs => exact ⟨lbrace, _, rfl, by decide⟩

/-- The tail context following a serialized array item never starts with a
digit. -/
theorem noDigitHead_items (xs : List JVal) (rest : List Char) :
    noDigitHead (itemsTail xs ++ ']' :: rest) = true := by
  cases xs <;> simp only [itemsTail, List.cons_append, List.nil_append, noDigitHead] <;> decide

/-- The tail context following a serialized object field never starts with
a digit. -/
theorem noDigitHead_fields (kvs : List (String × JVal)) (rest : List Char) :
    noDigitHead (fieldsTail kvs ++ rbrace :: rest) = true := by
  match kvs with
  | [] => simp only [fieldsTail, List.nil_append, noDigitHead]; decide
  | (k, v) :: kvs => simp only [fieldsTail, List.cons_append, noDigitHead]; decide

/-- The `String.mk`/`String.data` round trip. -/
theorem string_mk_data (s : String) : String.mk s.data = s := rfl

/-- Unfold of `parseVal` on a nonempty array body, given the results of
the recursive parses. -/
theorem parseVal_bracket (n : Nat) (c2 : Char) (r2 : List Char) (hne : c2 ≠ ']')
    (v : JVal) (vs : List JVal) (r r' : List Char)
    (h1 : parseVal n (c2 :: r2) = some (v, r))
    (h2 : parseTail n r = some (vs, r')) :
    parseVal (n + 1) ('[' :: c2 :: r2) = some (JVal.arr (v :: vs), r') := by
  simp [parseVal, hne, h1, h2]

/-- Unfold of `parseVal` on a nonempty object body, given the results of
the recursive parses. -/
theorem parseVal_brace (n : Nat) (c2 : Char) (r2 : List Char) (hne : c2 ≠ rbrace)
    (f : String × JVal) (fs : List (String × JVal)) (r r' : List Char)
    (h1 : parseField n (c2 :: r2) = some (f, r))
    (h2 : parseFieldTail n r = some (fs, r')) :
    parseVal (n + 1) (lbrace :: c2 :: r2) = some (JVal.obj (f :: fs), r') := by
  have hq : ¬(lbrace = '"') := by decide
  have hb : ¬(lbrace = '[') := by decide
  simp [parseVal, hq, hb, hne, h1, h2]

/-- Unfold of `parseVal` on an empty object. -/
theorem parseVal_brace_empty (n : Nat) (rest : List Char) :
    parseVal (n + 1) (lbrace :: rbrace :: rest) = some (JVal.obj [], rest) := by
  have hq : ¬(lbrace = '"') := by decide
  have hb : ¬(lbrace = '[') := by decide
  simp [parseVal, hq, hb]

/-- Unfold of `parseVal` on a digit-initial number, given the digit-run
scan result. -/
theorem parseVal_digit (fuel : Nat) (d : Char) (t : List Char) (hd : isDigitChar d = true)
    (m : Nat) (r : List Char) (hscan : scanDigits (d :: t) 0 = (m, r)) :
    parseVal (fuel + 1) (d :: t) = some (JVal.int (m : Int), r) := by
  obtain ⟨h1, h2, h3, h4, _⟩ := isDigitChar_head_facts d hd
  simp [parseVal, h1, h2, h3, h4, hd, hscan]

/-- Unfold of `parseVal` on a negative number, given the digit-run scan
result. -/
theorem parseVal_minus (fuel : Nat) (d : Char) (t : List Char) (hd : isDigitChar d = true)
    (m : Nat) (r : List Char) (hscan : scanDigits (d :: t) 0 = (m, r)) :
    parseVal (fuel + 1) ('-' :: d :: t) = some (JVal.int (-(m : Int)), r) := by
  have hlb : ¬(('-' : Char) = lbrace) := by decide
  simp [parseVal, hlb, hd, hscan]

/-- Unfold of `parseTail` after an item separator, given the results of the
recursive parses. -/
theorem parseTail_comma (n : Nat) (l : List Char) (v : JVal) (vs : List JVal)
    (r r' : List Char)
    (h1 : parseVal n l = some (v, r)) (h2 : parseTail n r = some (vs, r')) :
    parseTail (n + 1) (',' :: ' ' :: l) = some (v :: vs, r') := by
  simp [parseTail, h1, h2]

/-- Unfold of `parseField` on a serialized field, given the result of the
recursive parse. -/
theorem parseField_quote (n : Nat) (k : String) (v : JVal) (l r : List Char)
    (h1 : parseVal n l = some (v, r)) :
    parseField (n + 1) ('"' :: (escapeString k ++ '"' :: ':' :: ' ' :: l))
      = some ((k, v), r) := by
  simp only [parseField, eq_self_iff_true, if_true]
  rw [scanStr_dumps k (':' :: ' ' :: l)]
  simp [h1, string_mk_data]

/-- Unfold of `parseFieldTail` after a field separator, given the results
of the recursive parses. -/
theorem parseFieldTail_comma (n : Nat) (l : List Char) (f : String × JVal)
    (fs : List (String × JVal)) (r r' : List Char)
    (h1 : parseField n l = some (f, r)) (h2 : parseFieldTail n r = some (fs, r')) :
    parseFieldTail (n + 1) (',' :: ' ' :: l) = some (f :: fs, r') := by
  have hc : ¬(',' = rbrace) := by decide
  simp [parseFieldTail, hc, h1, h2]

/-- The canonical-JSON walker inverts `json.dumps` on every value (the
following context may not start with a digit, which delimits serialized
numbers; every context arising inside a serialization satisfies this):
proved for all four parsing entry points simultaneously by induction on
the parser's fuel. -/
theorem parse_dumps_round (fuel : Nat) :
    (∀ (v : JVal) (rest : List Char), jweight v ≤ fuel → noDigitHead rest = true →
       parseVal fuel (jsonDumpsChars v ++ rest) = some (v, rest))
    ∧ (∀ (xs : List JVal) (rest : List Char), jweightList xs ≤ fuel →
       parseTail fuel (itemsTail xs ++ ']' :: rest) = some (xs, rest))
    ∧ (∀ (k : String) (v : JVal) (rest : List Char), 1 + jweight v ≤ fuel →
       noDigitHead rest = true →
       parseField fuel (dumpsKey k ++ (jsonDumpsChars v ++ rest)) = some ((k, v), rest))
    ∧ (∀ (kvs : List (String × JVal)) (rest : List Char), jweightFields kvs ≤ fuel →
       parseFieldTail fuel (fieldsTail kvs ++ rbrace :: rest) = some (kvs, rest)) := by
  induction fuel with
  | zero =>
    refine ⟨fun v _ hw _ => absurd hw (by have := jweight_pos v; omega),
            fun xs _ hw => absurd hw (by have := jweightList_pos xs; omega),
            fun k v _ hw _ => absurd hw (by have := jweight_pos v; omega),
            fun kvs _ hw => absurd hw (by have := jweightFields_pos kvs; omega)⟩
  | succ n ih =>
    obtain ⟨ihV, ihT, ihF, ihFT⟩ := ih
    have hV : ∀ (v : JVal) (rest : List Char), jweight v ≤ n + 1 → noDigitHead rest = true →
        parseVal (n + 1) (jsonDumpsChars v ++ rest) = some (v, rest) := by
      intro v rest hw hnd
      match v with
      | JVal.str s =>
        simp only [jsonDumpsChars, List.cons_append, List.append_assoc,
          List.singleton_append]
        simp only [parseVal, eq_self_iff_true, if_true, List.nil_append]
        rw [scanStr_dumps s rest]
      | JVal.int ni =>
        match ni with
        | Int.ofNat m =>
          obtain ⟨d, ds, hd⟩ :=
            List.exists_cons_of_ne_nil (natDecimal_ne_nil (m + 1) m (by omega))
          have hdig : isDigitChar d = true :=
            natDecimal_digits (m + 1) m d (by rw [hd]; simp)
          have hscan : scanDigits (d :: (ds ++ rest)) 0 = (m, rest) := by
            rw [← List.cons_append, ← hd]
            exact scanDigits_natDecimal (m + 1) m (lt_ten_pow_succ m) rest hnd
          rw [show jsonDumpsChars (JVal.int (Int.ofNat m)) = natDecimal (m + 1) m from rfl,
            hd, List.cons_append, parseVal_digit n d (ds ++ rest) hdig m rest hscan]
          simp
        | Int.negSucc m =>
          obtain ⟨d, ds, hd⟩ :=
            List.exists_cons_of_ne_nil (natDecimal_ne_nil (m + 2) (m + 1) (by omega))
          have hdig : isDigitChar d = true :=
            natDecimal_digits (m + 2) (m + 1) d (by rw [hd]; simp)
          have hscan : scanDigits (d :: (ds ++ rest)) 0 = (m + 1, rest) := by
            rw [← List.cons_append, ← hd]
            exact scanDigits_natDecimal (m + 2) (m + 1) (lt_ten_pow_succ (m + 1)) rest hnd
          rw [show jsonDumpsChars (JVal.int (Int.negSucc m))
              = '-' :: natDecimal (m + 2) (m + 1) from rfl,
            hd, List.cons_append, List.cons_append,
            parseVal_minus n d (ds ++ rest) hdig (m + 1) rest hscan]
          simp [Int.negSucc_eq]
      | JVal.arr [] =>
        simp only [jsonDumpsChars, dumpsItems, List.nil_append, List.cons_append,
          List.singleton_append]
        simp [parseVal]
      | JVal.arr (x :: xs) =>
        have hw' : jweight x ≤ n ∧ jweightList xs ≤ n := by
          simp only [jweight, jweightList] at hw
          have := jweight_pos x
          have := jweightList_pos xs
          omega
        obtain ⟨c, cs, heq, hne⟩ := jsonDumps_head x
        simp only [jsonDumpsChars, dumpsItems, List.cons_append, List.append_assoc,
          List.singleton_append, List.nil_append]
        rw [heq, List.cons_append]
        exact parseVal_bracket n c _ hne x xs _ rest
          (by rw [← List.cons_append, ← heq]
              simpa using ihV x (itemsTail xs ++ ']' :: rest) hw'.1
                (noDigitHead_items xs rest))
          (ihT xs rest hw'.2)
      | JVal.obj [] =>
        simp only [jsonDumpsChars, dumpsFields, List.nil_append, List.cons_append,
          List.singleton_append]
        exact parseVal_brace_empty n rest
      | JVal.obj ((k, v) :: kvs) =>
        have hw' : 1 + jweight v ≤ n ∧ jweightFields kvs ≤ n := by
          simp only [jweight, jweightFields] at hw
          have := jweight_pos v
          have := jweightFields_pos kvs
          omega
        have hfield := ihF k v (fieldsTail kvs ++ rbrace :: rest) hw'.1
          (noDigitHead_fields kvs rest)
        simp only [dumpsKey, List.cons_append, List.append_assoc,
          List.singleton_append, List.nil_append] at hfield
        simp only [jsonDumpsChars, dumpsFields, dumpsKey, List.cons_append,
          List.append_assoc, List.singleton_append, List.nil_append]
        exact parseVal_brace n '"' _ (by decide) (k, v) kvs _ rest hfield
          (ihFT kvs rest hw'.2)
    have hF : ∀ (k : String) (v : JVal) (rest : List Char), 1 + jweight v ≤ n + 1 →
        noDigitHead rest = true →
        parseField (n + 1) (dumpsKey k ++ (jsonDumpsChars v ++ rest))
          = some ((k, v), rest) := by
      intro k v rest hw hnd
      have hwv : jweight v ≤ n := by omega
      have hq := parseField_quote n k v (jsonDumpsChars v ++ rest) rest
        (ihV v rest hwv hnd)
      simpa [dumpsKey, List.cons_append, List.append_assoc, List.singleton_append,
        List.nil_append] using hq
    refine ⟨hV, ?_, hF, ?_⟩
    · intro xs rest hw
      match xs with
      | [] =>
        simp only [itemsTail, List.nil_append]
        simp [parseTail]
      | x :: xs =>
        have hw' : jweight x ≤ n ∧ jweightList xs ≤ n := by
          simp only [jweightList] at hw
          have := jweight_pos x
          have := jweightList_pos xs
          omega
        simp only [itemsTail, List.cons_append, List.append_assoc]
        exact parseTail_comma n _ x xs _ rest
          (ihV x (itemsTail xs ++ ']' :: rest) hw'.1 (noDigitHead_items xs rest))
          (ihT xs rest hw'.2)
    · intro kvs rest hw
      match kvs with
      | [] =>
        simp only [fieldsTail, List.nil_append]
        simp [parseFieldTail]
      | (k, v) :: kvs =>
        have hw' : 1 + jweight v ≤ n ∧ jweightFields kvs ≤ n := by
          simp only [jweightFields] at hw
          have := jweight_pos v
          have := jweightFields_pos kvs
          omega
        simp only [fieldsTail, List.cons_append, List.append_assoc]
        exact parseFieldTail_comma n _ (k, v) kvs _ rest
          (ihF k v (fieldsTail kvs ++ rbrace :: rest) hw'.1 (noDigitHead_fields kvs rest))
          (ihFT kvs rest hw'.2)

/-- A decimal rendering is nonempty. -/
theorem intDecimal_length_pos (n : Int) : 0 < (intDecimal n).length := by
  match n with
  | Int.ofNat m =>
    simpa [intDecimal, List.length_pos] using natDecimal_ne_nil (m + 1) m (by omega)
  | Int.negSucc m => simp [intDecimal]

/-- The parser fuel bound is at most twice the serialization's length
(proved with companion bounds for item and field tails by strong induction
on structure size). -/
theorem jweight_le_two_len : ∀ N : Nat,
    (∀ v : JVal, sizeOf v ≤ N → jweight v ≤ 2 * (jsonDumpsChars v).length)
    ∧ (∀ xs : List JVal, sizeOf xs ≤ N →
       jweightList xs ≤ 2 * (itemsTail xs).length + 1)
    ∧ (∀ kvs : List (String × JVal), sizeOf kvs ≤ N →
       jweightFields kvs ≤ 2 * (fieldsTail kvs).length + 1) := by
  intro N
  induction N with
  | zero =>
    refine ⟨fun v hsz => absurd hsz (by cases v <;> simp <;> omega),
            fun xs hsz => absurd hsz (by cases xs <;> simp <;> omega),
            fun kvs hsz => absurd hsz (by cases kvs <;> simp <;> omega)⟩
  | succ N ih =>
    obtain ⟨ihv, ihl, ihf⟩ := ih
    refine ⟨?_, ?_, ?_⟩
    · intro v hsz
      match v with
      | JVal.str s => simp [jweight, jsonDumpsChars]; omega
      | JVal.int ni =>
        have := intDecimal_length_pos ni
        simp only [jweight, jsonDumpsChars]
        omega
      | JVal.arr [] => simp [jweight, jweightList, jsonDumpsChars, dumpsItems]
      | JVal.arr (x :: xs) =>
        have hszx : sizeOf x ≤ N := by simp at hsz; omega
        have hszxs : sizeOf xs ≤ N := by simp at hsz; omega
        have b1 := ihv x hszx
        have b2 := ihl xs hszxs
        simp only [jweight, jweightList, jsonDumpsChars, dumpsItems, List.length_append,
          List.length_cons, List.cons_append]
        omega
      | JVal.obj [] => simp [jweight, jweightFields, jsonDumpsChars, dumpsFields]
      | JVal.obj ((k, v) :: kvs) =>
        have hszv : sizeOf v ≤ N := by simp at hsz; omega
        have hszkvs : sizeOf kvs ≤ N := by simp at hsz; omega
        have b1 := ihv v hszv
        have b2 := ihf kvs hszkvs
        simp only [jweight, jweightFields, jsonDumpsChars, dumpsFields, List.length_append,
          List.length_cons, List.cons_append]
        omega
    · intro xs hsz
      match xs with
      | [] => simp [jweightList, itemsTail]
      | x :: xs =>
        have hszx : sizeOf x ≤ N := by simp at hsz; omega
        have hszxs : sizeOf xs ≤ N := by simp at hsz; omega
        have b1 := ihv x hszx
        have b2 := ihl xs hszxs
        simp only [jweightList, itemsTail, List.length_append, List.length_cons]
        omega
    · intro kvs hsz
      match kvs with
      | [] => simp [jweightFields, fieldsTail]
      | (k, v) :: kvs =>
        have hszv : sizeOf v ≤ N := by simp at hsz; omega
        have hszkvs : sizeOf kvs ≤ N := by simp at hsz; omega
        have b1 := ihv v hszv
        have b2 := ihf kvs hszkvs
        simp only [jweightFields, fieldsTail, List.length_append, List.length_cons]
        omega

/-- The embedded JSON round-trips for every value: `jsonParse` recovers
the value `json.dumps` serialized — escaped strings, numbers, arrays and
objects alike. -/
theorem jsonParse_dumps (v : JVal) : jsonParse (jsonDumps v) = some v := by
  have hw := (jweight_le_two_len (sizeOf v)).1 v le_rfl
  have hrun := (parse_dumps_round (2 * (jsonDumpsChars v).length + 1)).1 v [] (by omega) rfl
  rw [List.append_nil] at hrun
  unfold jsonParse
  rw [show (jsonDumps v).data = jsonDumpsChars v from rfl, hrun]

/-- The serializer never changes an element's tag. -/
theorem object_to_element_tag (v : JVal) (e : Element) :
    (object_to_element v e).tag = e.tag := by
  cases v <;> simp [object_to_element]

/-- Every element built for a list item is tagged `member`. -/
theorem memberElems_tags (xs : List JVal) : ∀ el ∈ memberElems xs, el.tag = "member" := by
  induction xs with
  | nil => simp [memberElems]
  | cons x xs ih =>
    intro el hel
    simp only [memberElems, List.mem_cons] at hel
    rcases hel with h | h
    · rw [h, object_to_element_tag]
    · exact ih el h

/-- The element built for a mapping field is tagged with the field's key. -/
theorem fieldElem_tag (k : String) (v : JVal) :
    (if JSON_ONLY_KEYS.contains k then
      (if truthy v then Element.mk k (some (jsonDumps v)) [] else Element.mk k none [])
    else object_to_element v ⟨k, none, []⟩).tag = k := by
  by_cases hc : JSON_ONLY_KEYS.contains k
  · rw [if_pos hc]
    by_cases ht : truthy v
    · rw [if_pos ht]
    · rw [if_neg ht]
  · rw [if_neg hc, object_to_element_tag]

/-- Walking the XML tree back reconstructs the serialized value on the
`xmlSafe` fragment (with companion statements for member lists and field
lists, by strong induction on structure size). -/
theorem walk_object_round : ∀ N : Nat,
    (∀ v : JVal, sizeOf v ≤ N → xmlSafe v = true → ∀ t : String,
       elementToObject (object_to_element v ⟨t, none, []⟩) = v)
    ∧ (∀ xs : List JVal, sizeOf xs ≤ N → xmlSafeList xs = true →
       elemsToList (memberElems xs) = xs)
    ∧ (∀ kvs : List (String × JVal), sizeOf kvs ≤ N → xmlSafeFields kvs = true →
       elemsToFields (fieldElems kvs) = kvs) := by
  intro N
  induction N with
  | zero =>
    refine ⟨fun v hsz _ => absurd hsz (by cases v <;> simp <;> omega),
            fun xs hsz _ => absurd hsz (by cases xs <;> simp <;> omega),
            fun kvs hsz _ => absurd hsz (by cases kvs <;> simp <;> omega)⟩
  | succ N ih =>
    obtain ⟨ihv, ihl, ihf⟩ := ih
    refine ⟨?_, ?_, ?_⟩
    · intro v hsz hsafe t
      match v with
      | JVal.str s => simp [object_to_element, elementToObject]
      | JVal.int n => simp [xmlSafe] at hsafe
      | JVal.arr [] => simp [xmlSafe] at hsafe
      | JVal.arr (x :: xs) =>
        have hs' : xmlSafe x = true ∧ xmlSafeList xs = true := by
          simpa [xmlSafe, xmlSafeList, Bool.and_eq_true] using hsafe
        have hszx : sizeOf x ≤ N := by simp at hsz; omega
        have hszxs : sizeOf xs ≤ N := by simp at hsz; omega
        have hmem : memberElems (x :: xs)
            = object_to_element x ⟨"member", none, []⟩ :: memberElems xs := rfl
        simp only [object_to_element, List.nil_append]
        rw [hmem]
        have hall : (object_to_element x ⟨"member", none, []⟩ :: memberElems xs).all
            (fun el => el.tag == "member") = true := by
          simp only [List.all_eq_true, beq_iff_eq]
          intro el hel
          exact memberElems_tags (x :: xs) el (by rw [hmem]; exact hel)
        simp only [elementToObject, hall, if_true]
        rw [← hmem]
        rw [(ihl (x :: xs) (by simp at hsz ⊢; omega)
          (by simp [xmlSafeList, hs'.1, hs'.2]) : elemsToList (memberElems (x :: xs)) = x :: xs)]
      | JVal.obj [] => simp [xmlSafe] at hsafe
      | JVal.obj ((k, v) :: kvs) =>
        have hs' : (k == "member") = false
            ∧ (if JSON_ONLY_KEYS.contains k then truthy v else xmlSafe v) = true
            ∧ xmlSafeFields kvs = true := by
          have := hsafe
          simp only [xmlSafe, xmlSafeFields, Bool.and_eq_true, Bool.not_eq_eq_eq_not,
            Bool.not_true] at this
          exact ⟨this.2.1.1, this.2.1.2, this.2.2⟩
        have hfe : fieldElems ((k, v) :: kvs)
            = (if JSON_ONLY_KEYS.contains k then
                (if truthy v then Element.mk k (some (jsonDumps v)) [] else Element.mk k none [])
              else object_to_element v ⟨k, none, []⟩) :: fieldElems kvs := rfl
        simp only [object_to_element, List.nil_append]
        rw [hfe]
        have hall : ((if JSON_ONLY_KEYS.contains k then
                (if truthy v then Element.mk k (some (jsonDumps v)) [] else Element.mk k none [])
              else object_to_element v ⟨k, none, []⟩) :: fieldElems kvs).all
            (fun el => el.tag == "member") = false := by
          apply Bool.not_eq_true _ |>.mp
          intro hcontra
          simp only [List.all_cons, Bool.and_eq_true, beq_iff_eq] at hcontra
          rw [fieldElem_tag] at hcontra
          have : (k == "member") = true := by simp [hcontra.1]
          rw [hs'.1] at this
          exact Bool.false_ne_true this
        simp only [elementToObject, hall, Bool.false_eq_true, if_false]
        rw [← hfe]
        rw [(ihf ((k, v) :: kvs) (by simp at hsz ⊢; omega)
          (by have := hsafe
              simp only [xmlSafe, Bool.and_eq_true] at this
              exact this.2) :
          elemsToFields (fieldElems ((k, v) :: kvs)) = (k, v) :: kvs)]
    · intro xs hsz hsafe
      match xs with
      | [] => rfl
      | x :: xs =>
        have hs' : xmlSafe x = true ∧ xmlSafeList xs = true := by
          simpa [xmlSafeList, Bool.and_eq_true] using hsafe
        have hszx : sizeOf x ≤ N := by simp at hsz; omega
        have hszxs : sizeOf xs ≤ N := by simp at hsz; omega
        simp only [memberElems, elemsToList]
        rw [ihv x hszx hs'.1 "member", ihl xs hszxs hs'.2]
    · intro kvs hsz hsafe
      match kvs with
      | [] => rfl
      | (k, v) :: kvs =>
        have hs' : (k == "member") = false
            ∧ (if JSON_ONLY_KEYS.contains k then truthy v else xmlSafe v) = true
            ∧ xmlSafeFields kvs = true := by
          have := hsafe
          simp only [xmlSafeFields, Bool.and_eq_true, Bool.not_eq_eq_eq_not,
            Bool.not_true] at this
          exact ⟨this.1.1, this.1.2, this.2⟩
        have hszv : sizeOf v ≤ N := by simp at hsz; omega
        have hszkvs : sizeOf kvs ≤ N := by simp at hsz; omega
        by_cases hc : JSON_ONLY_KEYS.contains k = true
        · have hs'' : truthy v = true := by
            have := hs'.2.1
            rwa [if_pos hc] at this
          simp only [fieldElems, hc, if_true, hs'', elemsToFields, Element.mk.injEq]
          rw [jsonParse_dumps v]
          simp only [Option.getD_some]
          rw [ihf kvs hszkvs hs'.2.2]
        · have hxv : xmlSafe v = true := by
            have := hs'.2.1
            rwa [if_neg hc] at this
          have htag : (object_to_element v ⟨k, none, []⟩).tag = k :=
            object_to_element_tag v _
          simp only [fieldElems]
          rw [if_neg hc]
          simp only [elemsToFields, htag]
          rw [if_neg hc]
          rw [ihv v hszv hxv k, ihf kvs hszkvs hs'.2.2]

/-- C8 counterexample: a sequence and a mapping whose only key is `member`
serialize to the same XML tree, so no walk back from the XML tree can
reconstruct both — the claimed round trip fails for mappings in general. -/
theorem c8_counterexample_member_collision :
    to_xml [("Root", JVal.arr [JVal.str "a"])]
      = to_xml [("Root", JVal.obj [("member", JVal.str "a")])]
    ∧ JVal.arr [JVal.str "a"] ≠ JVal.obj [("member", JVal.str "a")] := by
  constructor
  · simp [to_xml, object_to_element, memberElems, fieldElems, JSON_ONLY_KEYS]
  · simp

/-- C8 amended: for a single-root-key mapping whose value is `xmlSafe`
(string leaves, nonempty sequences and mappings, no key `member`, and
truthy values under the two designated keys), serializing to XML and
walking the tree back with `elementToObject` reconstructs the same
key/value tree; the two designated keys hold their value as embedded JSON
text (`json.dumps`), and parsing that text yields the original value for
every value — escaped strings, integers, sequences and mappings alike. -/
theorem c8_amended_xml_round_trip (root : String) (v : JVal) (h : xmlSafe v = true) :
    (∃ e : Element, to_xml [(root, v)] = some e ∧ e.tag = root ∧ elementToObject e = v)
    ∧ (∀ (k : String) (w : JVal), JSON_ONLY_KEYS.contains k = true → truthy w = true →
        fieldElems [(k, w)] = [⟨k, some (jsonDumps w), []⟩])
    ∧ (∀ w : JVal, jsonParse (jsonDumps w) = some w) := by
  refine ⟨⟨object_to_element v ⟨root, none, []⟩, rfl, object_to_element_tag v _,
      (walk_object_round (sizeOf v)).1 v le_rfl h root⟩,
    ?_, fun w => jsonParse_dumps w⟩
  intro k w hk hw
  simp only [fieldElems]
  rw [if_pos hk, if_pos hw]

/-- Witness for C8 (amended) at a concrete stack-description result with a
`TemplateBody` JSON-only field, a string field and a sequence field. -/
theorem c8_amended_xml_round_trip_witness :
    (∃ e : Element,
      to_xml [("DescribeStacksResult",
        JVal.obj [("StackName", JVal.str "teststack"),
          ("TemplateBody", JVal.obj [("Timeout", JVal.int 60),
            ("Description", JVal.str "line1\nline2")]),
          ("Outputs", JVal.arr [JVal.str "x", JVal.str "y"])])] = some e
      ∧ e.tag = "DescribeStacksResult"
      ∧ elementToObject e
          = JVal.obj [("StackName", JVal.str "teststack"),
              ("TemplateBody", JVal.obj [("Timeout", JVal.int 60),
                ("Description", JVal.str "line1\nline2")]),
              ("Outputs", JVal.arr [JVal.str "x", JVal.str "y"])])
    ∧ (∀ (k : String) (w : JVal), JSON_ONLY_KEYS.contains k = true → truthy w = true →
        fieldElems [(k, w)] = [⟨k, some (jsonDumps w), []⟩])
    ∧ (∀ w : JVal, jsonParse (jsonDumps w) = some w) :=
  c8_amended_xml_round_trip "DescribeStacksResult"
    (JVal.obj [("StackName", JVal.str "teststack"),
      ("TemplateBody", JVal.obj [("Timeout", JVal.int 60),
        ("Description", JVal.str "line1\nline2")]),
      ("Outputs", JVal.arr [JVal.str "x", JVal.str "y"])]) (by decide)
